import Mathlib

/-!
Shallow embedding of the tablux repository (a Go terminal viewer for
JSON/JSONL trees and CSV tables) and proofs about the claims of its
specification.

Source files embedded:
  - pkg/parser/csv_parser.go   (CSVData, SortByColumn, NewCSVData)
  - pkg/parser/detector.go and its refactored version (detectByContent,
    detectJSONFormat, detectJSONLFormat)
  - pkg/ui/json_viewer.go      (JSONViewer: node list building, navigation,
    toggling; CSVViewer: column widths, navigation, sorting, truncation)
  - pkg/ui/theme.go            (DefaultColumnMaxWidth = 30)

The tree node type lives in the repository package pkg/model which is not
present in the sources; its tiny surface (expanded flag defaulting to true,
Toggle flipping it, HasChildren testing for children) is modelled from the
spec where noted.

Go machine integers are modelled as Int where a field can be negative
(cursors, the -1 sort sentinel) and as Nat where the code only ever holds
non-negative sizes. Go string comparison is byte-wise lexicographic; on
UTF-8 data this coincides with code-point-wise lexicographic comparison,
which is what charListLt below implements.
-/

/-! ## Go string comparison (lexicographic, as `<` / `>` on Go strings) -/

/-- Code-point comparison of characters, mirroring Go byte-wise string
comparison on UTF-8 data. -/
def charLt (a b : Char) : Bool := a.toNat < b.toNat

/-- Lexicographic comparison of character lists. -/
def charListLt : List Char → List Char → Bool
  | [], [] => false
  | [], _ :: _ => true
  | _ :: _, [] => false
  | a :: as, b :: bs =>
    if charLt a b then true
    else if charLt b a then false
    else charListLt as bs

/-- Go `a < b` on strings. -/
def goStrLt (a b : String) : Bool := charListLt a.data b.data

/-- Go `a > b` on strings. -/
def goStrGt (a b : String) : Bool := goStrLt b a

/-- Go `a <= b` on strings (negation of `>`). -/
def goStrLe (a b : String) : Bool := !goStrGt a b

theorem charListLt_irrefl : ∀ l : List Char, charListLt l l = false
  | [] => rfl
  | a :: as => by
      have h : ¬ a.toNat < a.toNat := Nat.lt_irrefl _
      simp [charListLt, charLt, h, charListLt_irrefl as]

theorem charListLt_trans :
    ∀ (a b c : List Char), charListLt a b = true → charListLt b c = true →
      charListLt a c = true
  | [], [], _, hab, _ => by simp [charListLt] at hab
  | [], _ :: _, [], _, hbc => by simp [charListLt] at hbc
  | [], _ :: _, _ :: _, _, _ => rfl
  | _ :: _, [], _, hab, _ => by simp [charListLt] at hab
  | _ :: _, _ :: _, [], _, hbc => by simp [charListLt] at hbc
  | x :: xs, y :: ys, z :: zs, hab, hbc => by
      simp only [charListLt, charLt] at hab hbc ⊢
      by_cases hxy : x.toNat < y.toNat
      · by_cases hyz : y.toNat < z.toNat
        · have hxz : x.toNat < z.toNat := Nat.lt_trans hxy hyz
          simp [hxz]
        · simp only [hyz, decide_False, Bool.false_eq_true, if_false] at hbc
          by_cases hzy : z.toNat < y.toNat
          · simp [hzy] at hbc
          · have hxz : x.toNat < z.toNat := by omega
            simp [hxz]
      · simp only [hxy, decide_False, Bool.false_eq_true, if_false] at hab
        by_cases hyx : y.toNat < x.toNat
        · simp [hyx] at hab
        · simp only [hyx, decide_False, Bool.false_eq_true, if_false] at hab
          by_cases hyz : y.toNat < z.toNat
          · have hxz : x.toNat < z.toNat := by omega
            simp [hxz]
          · simp only [hyz, decide_False, Bool.false_eq_true, if_false] at hbc
            by_cases hzy : z.toNat < y.toNat
            · simp [hzy] at hbc
            · simp only [hzy, decide_False, Bool.false_eq_true, if_false] at hbc
              have h1 : ¬ x.toNat < z.toNat := by omega
              have h2 : ¬ z.toNat < x.toNat := by omega
              simp only [h1, h2, decide_False, Bool.false_eq_true, if_false]
              exact charListLt_trans xs ys zs hab hbc

theorem charListLt_connex :
    ∀ (a b : List Char), charListLt a b = false → charListLt b a = false →
      a = b
  | [], [], _, _ => rfl
  | [], _ :: _, hab, _ => by simp [charListLt] at hab
  | _ :: _, [], _, hba => by simp [charListLt] at hba
  | x :: xs, y :: ys, hab, hba => by
      simp only [charListLt, charLt] at hab hba
      by_cases hxy : x.toNat < y.toNat
      · simp [hxy] at hab
      · by_cases hyx : y.toNat < x.toNat
        · simp [hyx] at hba
        · simp only [hxy, hyx, decide_False, Bool.false_eq_true, if_false] at hab hba
          have hv : x = y := Char.ext (UInt32.ext (show x.toNat = y.toNat by omega))
          rw [hv, charListLt_connex xs ys hab hba]

theorem goStrLe_refl (a : String) : goStrLe a a = true := by
  simp [goStrLe, goStrGt, goStrLt, charListLt_irrefl]

theorem goStrLt_le {a b : String} (h : goStrLt a b = true) : goStrLe a b = true := by
  simp only [goStrLe, goStrGt, goStrLt, Bool.not_eq_true']
  by_contra hc
  have hba : charListLt b.data a.data = true := by
    cases hh : charListLt b.data a.data with
    | true => rfl
    | false => exact absurd hh hc
  have := charListLt_trans _ _ _ h hba
  rw [charListLt_irrefl] at this
  exact Bool.noConfusion this

theorem goStrLe_trans {a b c : String}
    (hab : goStrLe a b = true) (hbc : goStrLe b c = true) :
    goStrLe a c = true := by
  simp only [goStrLe, goStrGt, goStrLt, Bool.not_eq_true'] at hab hbc ⊢
  by_contra hc
  have hca : charListLt c.data a.data = true := by
    cases hh : charListLt c.data a.data with
    | true => rfl
    | false => exact absurd hh hc
  by_cases hab2 : charListLt a.data b.data = true
  · have hcb : charListLt c.data b.data = true := charListLt_trans _ _ _ hca hab2
    rw [hbc] at hcb
    exact Bool.noConfusion hcb
  · have hab2f : charListLt a.data b.data = false := by
      cases hh : charListLt a.data b.data with
      | true => exact absurd hh hab2
      | false => rfl
    have heq : a.data = b.data := charListLt_connex _ _ hab2f hab
    rw [heq] at hca
    rw [hbc] at hca
    exact Bool.noConfusion hca

/-- `a < b` false means `b ≤ a`. -/
theorem goStrLe_of_not_lt {a b : String} (h : goStrLt a b = false) :
    goStrLe b a = true := by
  simp [goStrLe, goStrGt, h]

/-! ## Tree model (pkg/model.JSONNode, reduced to what the viewer reads) -/

/-- Modelled from the spec: pkg/model.JSONNode is absent from the sources.
Per spec section 3, a tree node carries an `expanded` boolean (default true,
meaningful for nodes with children) and an ordered list of children; key,
kind and value play no role in the claims below and are omitted. -/
inductive Node where
  | mk (expanded : Bool) (children : List Node)
deriving Repr

def Node.expanded : Node → Bool
  | .mk e _ => e

def Node.children : Node → List Node
  | .mk _ c => c

/-- Modelled from the spec: model.JSONNode.HasChildren, true when the node
has at least one child. -/
def Node.hasChildren (n : Node) : Bool := !n.children.isEmpty

/-- A node is addressed by its path from the root: the list of child
indices to follow (Go uses pointers; paths are the functional analogue). -/
def getNode : Node → List Nat → Option Node
  | n, [] => some n
  | n, i :: rest =>
    match n.children.get? i with
    | some c => getNode c rest
    | none => none

/-- The expanded flag of the node at a path. -/
def expandedAt (root : Node) (p : List Nat) : Option Bool :=
  (getNode root p).map Node.expanded

mutual
/-- Modelled from the spec: model.JSONNode.Toggle flips the node expanded
flag. toggleAt applies it to the node at a path, leaving the rest of the
tree untouched (an out-of-range path leaves the tree unchanged). -/
def toggleAt : Node → List Nat → Node
  | .mk e cs, [] => .mk (!e) cs
  | .mk e cs, i :: rest => .mk e (toggleChildren cs i rest)

/-- Helper of toggleAt: toggle inside the i-th element of a child list. -/
def toggleChildren : List Node → Nat → List Nat → List Node
  | [], _, _ => []
  | c :: cs, 0, rest => toggleAt c rest :: cs
  | c :: cs, i + 1, rest => c :: toggleChildren cs i rest
end

mutual
/-- JSONViewer.flattenNode (json_viewer.go:67): pre-order walk collecting
node paths, not descending below a node whose expanded flag is false. -/
def flattenNode (n : Node) (p : List Nat) : List (List Nat) :=
  match n with
  | .mk e cs => p :: (if e then flattenChildren cs p 0 else [])

/-- The loop body of flattenNode over the children. -/
def flattenChildren (cs : List Node) (p : List Nat) (i : Nat) : List (List Nat) :=
  match cs with
  | [] => []
  | c :: rest => flattenNode c (p ++ [i]) ++ flattenChildren rest p (i + 1)
end

/-- JSONViewer.updateVisibleNodes visibility test (json_viewer.go:85-94):
walk the ancestor chain; the node is visible when every proper ancestor is
expanded. Here the walk goes down the path instead of up the parent
pointers. -/
def ancestorsExpanded : Node → List Nat → Bool
  | _, [] => true
  | n, i :: rest =>
    n.expanded &&
      (match n.children.get? i with
       | some c => ancestorsExpanded c rest
       | none => false)

mutual
/-- toggleAllNodes (json_viewer.go:156-163): set the expanded flag of the
node and all descendants, but only for nodes that have children. -/
def toggleAllNodes (n : Node) (b : Bool) : Node :=
  match n with
  | .mk e cs =>
    if cs.isEmpty then .mk e cs
    else .mk b (toggleAllChildren cs b)

/-- The loop of toggleAllNodes over the children. -/
def toggleAllChildren (cs : List Node) (b : Bool) : List Node :=
  match cs with
  | [] => []
  | c :: rest => toggleAllNodes c b :: toggleAllChildren rest b
end

mutual
/-- Every node of the tree has expanded = true (the construction default
per spec section 3). -/
def allExpanded (n : Node) : Bool :=
  match n with
  | .mk e cs => e && allExpandedList cs

/-- allExpanded over a list of nodes. -/
def allExpandedList (cs : List Node) : Bool :=
  match cs with
  | [] => true
  | c :: rest => allExpanded c && allExpandedList rest
end

/-! ## JSONViewer (json_viewer.go, first file of the ui package) -/

/-- JSONViewer state (json_viewer.go:37-45). Node lists hold paths rather
than Go pointers. Go ints are modelled as Int. -/
structure JSONViewer where
  root : Node
  cursor : Int
  nodes : List (List Nat)
  visibleNodes : List (List Nat)
  viewportY : Int
  viewportHeight : Int
deriving Repr

/-- updateVisibleNodes (json_viewer.go:80-105): filter the flattened list
by ancestor visibility, then re-clamp the cursor if the list shrank. -/
def updateVisible (v : JSONViewer) : JSONViewer :=
  let vis := v.nodes.filter (fun p => ancestorsExpanded v.root p)
  let c := if v.cursor ≥ (vis.length : Int) ∧ (vis.length : Int) > 0
    then (vis.length : Int) - 1 else v.cursor
  { v with visibleNodes := vis, cursor := c }

/-- buildNodeList (json_viewer.go:59-64). -/
def buildNodeList (v : JSONViewer) : JSONViewer :=
  updateVisible { v with nodes := flattenNode v.root [] }

/-- NewJSONViewer (json_viewer.go:48-56). -/
def newJSONViewer (root : Node) : JSONViewer :=
  buildNodeList { root := root, cursor := 0, nodes := [], visibleNodes := [],
                  viewportY := 0, viewportHeight := 20 }

/-- ensureCursorVisible (json_viewer.go:135-141). -/
def ensureCursorVisibleJson (v : JSONViewer) : JSONViewer :=
  if v.cursor < v.viewportY then { v with viewportY := v.cursor }
  else if v.cursor ≥ v.viewportY + v.viewportHeight then
    { v with viewportY := v.cursor - v.viewportHeight + 1 }
  else v

/-- JSONViewer.MoveUp (json_viewer.go:108-113). -/
def jsonMoveUp (v : JSONViewer) : JSONViewer :=
  ensureCursorVisibleJson (if v.cursor > 0 then { v with cursor := v.cursor - 1 } else v)

/-- JSONViewer.MoveDown (json_viewer.go:116-121). -/
def jsonMoveDown (v : JSONViewer) : JSONViewer :=
  ensureCursorVisibleJson
    (if v.cursor < (v.visibleNodes.length : Int) - 1 then { v with cursor := v.cursor + 1 } else v)

/-- JSONViewer.ToggleNode (json_viewer.go:124-132). The Go guard is
`cursor < len(visibleNodes)`; indexing additionally presumes a
non-negative cursor (all reachable states satisfy it, see the cursor
invariant below), so the model guards on both. -/
def toggleNode (v : JSONViewer) : JSONViewer :=
  if 0 ≤ v.cursor ∧ v.cursor < (v.visibleNodes.length : Int) then
    match v.visibleNodes.get? v.cursor.toNat with
    | some p =>
      match getNode v.root p with
      | some nd =>
        if nd.hasChildren then buildNodeList { v with root := toggleAt v.root p }
        else v
      | none => v
    | none => v
  else v

/-- JSONViewer.CollapseAll (json_viewer.go:144-147). -/
def collapseAll (v : JSONViewer) : JSONViewer :=
  buildNodeList { v with root := toggleAllNodes v.root false }

/-- JSONViewer.ExpandAll (json_viewer.go:150-153). -/
def expandAll (v : JSONViewer) : JSONViewer :=
  buildNodeList { v with root := toggleAllNodes v.root true }

/-- The tree-viewer operations of claim C2. -/
inductive JsonOp where
  | up
  | down
  | toggle
deriving Repr

def applyJsonOp (v : JSONViewer) : JsonOp → JSONViewer
  | .up => jsonMoveUp v
  | .down => jsonMoveDown v
  | .toggle => toggleNode v

/-! ## CSV table model (pkg/parser/csv_parser.go) -/

/-- CSVData (csv_parser.go:11-21). SortColumn is a Go int that holds the
-1 "no sorting" sentinel, hence Int. -/
structure CSVData where
  headers : List String
  rows : List (List String)
  columnWidths : List Nat
  columnVisibility : List Bool
  sortColumn : Int
  sortAsc : Bool
deriving Repr

/-- NewCSVData (csv_parser.go:24-32); SortAsc takes Go's zero value. -/
def newCSVData : CSVData :=
  { headers := [], rows := [], columnWidths := [], columnVisibility := [],
    sortColumn := -1, sortAsc := false }

/-- One comparison-and-swap of SortByColumn's inner loop
(csv_parser.go:213-229): rows i and j are swapped only when BOTH have a
cell at the sort column and those cells compare out of order (cmp is
goStrGt for the ascending loop, goStrLt for the descending one). -/
def maybeSwap (col : Nat) (cmp : String → String → Bool)
    (rows : List (List String)) (i j : Nat) : List (List String) :=
  match rows.get? i, rows.get? j with
  | some ri, some rj =>
    if col < ri.length ∧ col < rj.length ∧
        cmp (ri.getD col "") (rj.getD col "") = true
    then (rows.set i rj).set j ri
    else rows
  | _, _ => rows

/-- The inner `for j` loop of SortByColumn, over an explicit list of j
values. -/
def innerLoop (col : Nat) (cmp : String → String → Bool) (i : Nat)
    (rows : List (List String)) : List Nat → List (List String)
  | [] => rows
  | j :: rest => innerLoop col cmp i (maybeSwap col cmp rows i j) rest

/-- The outer `for i` loop of SortByColumn. The Go loop bounds re-read
len(c.Rows) each iteration; swapping preserves the length, so the initial
length n is used throughout. -/
def outerLoop (col : Nat) (cmp : String → String → Bool) (n : Nat)
    (rows : List (List String)) : List Nat → List (List String)
  | [] => rows
  | i :: rest =>
    outerLoop col cmp n (innerLoop col cmp i rows (List.range' (i + 1) (n - (i + 1)))) rest

/-- The row-reordering part of SortByColumn (csv_parser.go:211-230): the
ascending branch runs the nested loops with `>`, the descending one with
`<`: `for i := 0; i < len-1; i++ { for j := i+1; j < len; j++ { ... } }`. -/
def sortRows (col : Nat) (asc : Bool) (rows : List (List String)) :
    List (List String) :=
  if asc then outerLoop col goStrGt rows.length rows (List.range (rows.length - 1))
  else outerLoop col goStrLt rows.length rows (List.range (rows.length - 1))

/-- CSVData.SortByColumn (csv_parser.go:203-231). -/
def sortByColumn (c : CSVData) (colIndex : Int) (ascending : Bool) : CSVData :=
  if colIndex < 0 ∨ (c.headers.length : Int) ≤ colIndex then c
  else
    { c with sortColumn := colIndex, sortAsc := ascending,
             rows := sortRows colIndex.toNat ascending c.rows }

/-! ## CSVViewer (json_viewer.go, second file of the ui package) -/

/-- One row's contribution to calculateColumnWidths
(json_viewer.go:395-404): widen each column whose cell is longer; cells
beyond the column count are ignored, columns beyond the row keep their
width. -/
def updateWithRow : List Nat → List String → List Nat
  | ws, [] => ws
  | [], _ => []
  | w :: ws, cell :: cs =>
    (if cell.length + 2 > w then cell.length + 2 else w) :: updateWithRow ws cs

/-- The clamp pass of calculateColumnWidths (json_viewer.go:406-412):
cap at columnMaxWidth, raise to at least 10. -/
def clampWidth (maxW : Nat) (w : Nat) : Nat :=
  if w > maxW then maxW else if w < 10 then 10 else w

/-- The clamp-and-evenness pass of calculateColumnWidths
(json_viewer.go:406-418): cap at columnMaxWidth, raise to at least 10,
then bump odd widths by one. -/
def finalizeWidth (maxW : Nat) (w : Nat) : Nat :=
  if clampWidth maxW w % 2 = 1 then clampWidth maxW w + 1 else clampWidth maxW w

/-- CSVViewer.calculateColumnWidths (json_viewer.go:383-419): start from
header length + 4, widen by data cells (+2), clamp and even out. -/
def calculateColumnWidths (maxW : Nat) (headers : List String)
    (rows : List (List String)) : List Nat :=
  (rows.foldl updateWithRow (headers.map (fun h => h.length + 4))).map
    (finalizeWidth maxW)

/-- CSVViewer (json_viewer.go:353-363). Go ints are modelled as Int for
cursor and viewport fields. -/
structure CSVViewer where
  data : CSVData
  cursorRow : Int
  cursorCol : Int
  viewportX : Int
  viewportY : Int
  viewportWidth : Int
  viewportHeight : Int
  columnMaxWidth : Nat
  columnWidths : List Nat
deriving Repr

/-- NewCSVViewer (json_viewer.go:366-380); columnMaxWidth is
DefaultColumnMaxWidth = 30 (theme.go:34). -/
def newCSVViewer (data : CSVData) : CSVViewer :=
  { data := data, cursorRow := 0, cursorCol := 0, viewportX := 0, viewportY := 0,
    viewportWidth := 0, viewportHeight := 0, columnMaxWidth := 30,
    columnWidths := calculateColumnWidths 30 data.headers data.rows }

/-- CSVViewer.ensureCursorVisible (json_viewer.go:473-480). -/
def ensureCursorVisibleCsv (v : CSVViewer) : CSVViewer :=
  if v.cursorRow < v.viewportY then { v with viewportY := v.cursorRow }
  else if v.cursorRow ≥ v.viewportY + v.viewportHeight - 1 then
    { v with viewportY := v.cursorRow - v.viewportHeight + 2 }
  else v

/-- CSVViewer.MoveUp (json_viewer.go:429-434). -/
def csvMoveUp (v : CSVViewer) : CSVViewer :=
  if v.cursorRow > 0 then ensureCursorVisibleCsv { v with cursorRow := v.cursorRow - 1 }
  else v

/-- CSVViewer.MoveDown (json_viewer.go:436-441): the guard is
`cursorRow < len(Rows)`, so the cursor may rest one past the last row. -/
def csvMoveDown (v : CSVViewer) : CSVViewer :=
  if v.cursorRow < (v.data.rows.length : Int) then
    ensureCursorVisibleCsv { v with cursorRow := v.cursorRow + 1 }
  else v

/-- CSVViewer.MoveLeft (json_viewer.go:443-448). -/
def csvMoveLeft (v : CSVViewer) : CSVViewer :=
  if v.cursorCol > 0 then ensureCursorVisibleCsv { v with cursorCol := v.cursorCol - 1 }
  else v

/-- CSVViewer.MoveRight (json_viewer.go:450-455). -/
def csvMoveRight (v : CSVViewer) : CSVViewer :=
  if v.cursorCol < (v.data.headers.length : Int) - 1 then
    ensureCursorVisibleCsv { v with cursorCol := v.cursorCol + 1 }
  else v

/-- CSVViewer.SortByCurrentColumn (json_viewer.go:463-470). -/
def sortByCurrentColumn (v : CSVViewer) : CSVViewer :=
  let ascending := if v.data.sortColumn = v.cursorCol then !v.data.sortAsc else true
  { v with data := sortByColumn v.data v.cursorCol ascending }

/-- The cell-content truncation shared by createHeaderRow
(json_viewer.go:537-540) and createDataRow (json_viewer.go:584-587):
`if len(content) > width-2 { content = content[:width-5] + "..." }`. -/
def truncateContent (content : String) (width : Nat) : String :=
  if content.length > width - 2 then
    String.mk (content.data.take (width - 5)) ++ "..."
  else content

/-- The row/column cursor operations of claims C9/C10. -/
inductive CsvOp where
  | up
  | down
deriving Repr

def applyCsvOp (v : CSVViewer) : CsvOp → CSVViewer
  | .up => csvMoveUp v
  | .down => csvMoveDown v

/-! ## Format detection (pkg/parser, refactored detector of the unnamed
source file: detectJSONFormat / detectJSONLFormat / detectByContent) -/

/-- FileFormat (detector.go:11-22). -/
inductive FileFormat where
  | unknown
  | json
  | jsonl
  | csv
deriving Repr, DecidableEq

/-- `s[0] == c` on a Go string, false when empty. -/
def firstCharIs (s : String) (c : Char) : Bool :=
  match s.data with
  | [] => false
  | a :: _ => a = c

/-- Go unicode white space for the ASCII range relevant here (space, tab,
newline, carriage return, vertical tab, form feed). -/
def isSpaceChar (c : Char) : Bool :=
  c = ' ' || c = '\t' || c = '\n' || c = '\r' ||
    c = Char.ofNat 11 || c = Char.ofNat 12

/-- bytes.TrimSpace on the character list. -/
def trimChars (l : List Char) : List Char :=
  ((l.dropWhile isSpaceChar).reverse.dropWhile isSpaceChar).reverse

/-- bytes.TrimSpace on a Go string. -/
def goTrim (s : String) : String := String.mk (trimChars s.data)

/-- The recursion of bytes.Split on the newline separator: accumulate the
current piece (reversed) and cut at each newline. -/
def splitOnNl : List Char → List Char → List (List Char)
  | [], acc => [acc.reverse]
  | c :: rest, acc =>
    if c = '\n' then acc.reverse :: splitOnNl rest []
    else splitOnNl rest (c :: acc)

/-- bytes.Split(s, "\n") on a Go string: the newline-separated pieces,
empty pieces included. -/
def goSplitLines (s : String) : List String :=
  (splitOnNl s.data []).map String.mk

/-- detectJSONFormat of the refactored detector: content starting with
`{` or `[` that the JSON parser accepts. json.Unmarshal is an external
collaborator and is passed in as the predicate `parses`. -/
def detectJSONFormat (parses : String → Bool) (data : String) : Bool :=
  (firstCharIs data '{' || firstCharIs data '[') && parses data

/-- detectJSONLFormat of the refactored detector (unnamed source,
lines 96-125): needs at least two lines; samples the first min(10, n)
lines; counts trimmed non-empty lines that start with `{` and parse;
declares JSONL when the count is positive and at least sampleSize/2
(integer division, denominator counting empty sampled lines too). -/
def jsonlCount (parses : String → Bool) (lines : List String) : Nat :=
  ((lines.take (min 10 lines.length)).filter (fun l =>
    !(goTrim l).data.isEmpty &&
      (firstCharIs (goTrim l) '{' && parses (goTrim l)))).length

/-- See jsonlCount for the loop body (the sampled-lines counter). -/
def detectJSONLFormat (parses : String → Bool) (lines : List String) : Bool :=
  if lines.length ≤ 1 then false
  else
    decide (0 < jsonlCount parses lines) &&
      decide (min 10 lines.length / 2 ≤ jsonlCount parses lines)

/-- detectByContent of the refactored detector (unnamed source, lines
153-180). The CSV detector is likewise an external-collaborator
predicate: it can only influence the csv/unknown outcomes, never the
jsonl one. -/
def detectByContent (parses csvOk : String → Bool) (data : String) : FileFormat :=
  if (goTrim data).data.isEmpty then .unknown
  else if detectJSONFormat parses (goTrim data) then .json
  else if detectJSONLFormat parses (goSplitLines (goTrim data)) then .jsonl
  else if csvOk (goTrim data) then .csv
  else .unknown

/-- The jsonl criterion in the words of the spec (claim C3): among the up
to 10 sampled lines, at least 50 percent of the NON-EMPTY ones parse as
JSON objects. Written from the spec for comparison with the code. -/
def specJsonlCriterion (parses : String → Bool) (data : String) : Bool :=
  let lines := goSplitLines (goTrim data)
  let sampled := lines.take (min 10 lines.length)
  let nonEmpty := sampled.filter (fun l => !(goTrim l).data.isEmpty)
  let succ := nonEmpty.filter (fun l =>
    firstCharIs (goTrim l) '{' && parses (goTrim l))
  decide (nonEmpty.length ≤ 2 * succ.length)

/-! ## Frame lemmas for navigation (claims C9, C10) -/

theorem ensureJson_frame (v : JSONViewer) :
    (ensureCursorVisibleJson v).root = v.root ∧
    (ensureCursorVisibleJson v).nodes = v.nodes ∧
    (ensureCursorVisibleJson v).visibleNodes = v.visibleNodes ∧
    (ensureCursorVisibleJson v).cursor = v.cursor := by
  unfold ensureCursorVisibleJson
  split
  · exact ⟨rfl, rfl, rfl, rfl⟩
  · split
    · exact ⟨rfl, rfl, rfl, rfl⟩
    · exact ⟨rfl, rfl, rfl, rfl⟩

theorem ensureCsv_frame (v : CSVViewer) :
    (ensureCursorVisibleCsv v).data = v.data ∧
    (ensureCursorVisibleCsv v).cursorRow = v.cursorRow ∧
    (ensureCursorVisibleCsv v).cursorCol = v.cursorCol := by
  unfold ensureCursorVisibleCsv
  split
  · exact ⟨rfl, rfl, rfl⟩
  · split
    · exact ⟨rfl, rfl, rfl⟩
    · exact ⟨rfl, rfl, rfl⟩

theorem csvMoveUp_data (v : CSVViewer) : (csvMoveUp v).data = v.data := by
  unfold csvMoveUp
  split
  · exact (ensureCsv_frame _).1
  · rfl

theorem csvMoveDown_data (v : CSVViewer) : (csvMoveDown v).data = v.data := by
  unfold csvMoveDown
  split
  · exact (ensureCsv_frame _).1
  · rfl

theorem csvMoveLeft_data (v : CSVViewer) : (csvMoveLeft v).data = v.data := by
  unfold csvMoveLeft
  split
  · exact (ensureCsv_frame _).1
  · rfl

theorem csvMoveRight_data (v : CSVViewer) : (csvMoveRight v).data = v.data := by
  unfold csvMoveRight
  split
  · exact (ensureCsv_frame _).1
  · rfl

/-- C10: Every pure navigation operation — the tree viewer's
moveUp/moveDown and the table viewer's moveUp/moveDown/moveLeft/moveRight —
leaves the underlying model completely unchanged: the tree (root), its
flattened and visible node lists, and the whole table data record (rows,
headers, columnVisibility, sortColumn, sortAscending) are untouched; only
cursor and viewport origin may change. -/
theorem claim_C10_navigation_frame (v : JSONViewer) (w : CSVViewer) :
    ((jsonMoveUp v).root = v.root ∧ (jsonMoveUp v).nodes = v.nodes ∧
       (jsonMoveUp v).visibleNodes = v.visibleNodes) ∧
    ((jsonMoveDown v).root = v.root ∧ (jsonMoveDown v).nodes = v.nodes ∧
       (jsonMoveDown v).visibleNodes = v.visibleNodes) ∧
    ((csvMoveUp w).data.rows = w.data.rows ∧
       (csvMoveUp w).data.headers = w.data.headers ∧
       (csvMoveUp w).data.columnVisibility = w.data.columnVisibility ∧
       (csvMoveUp w).data.sortColumn = w.data.sortColumn ∧
       (csvMoveUp w).data.sortAsc = w.data.sortAsc) ∧
    ((csvMoveDown w).data = w.data) ∧
    ((csvMoveLeft w).data = w.data) ∧
    ((csvMoveRight w).data = w.data) := by
  refine ⟨?_, ?_, ?_, csvMoveDown_data w, csvMoveLeft_data w, csvMoveRight_data w⟩
  · unfold jsonMoveUp
    split
    · exact ⟨(ensureJson_frame _).1, (ensureJson_frame _).2.1, (ensureJson_frame _).2.2.1⟩
    · exact ⟨(ensureJson_frame _).1, (ensureJson_frame _).2.1, (ensureJson_frame _).2.2.1⟩
  · unfold jsonMoveDown
    split
    · exact ⟨(ensureJson_frame _).1, (ensureJson_frame _).2.1, (ensureJson_frame _).2.2.1⟩
    · exact ⟨(ensureJson_frame _).1, (ensureJson_frame _).2.1, (ensureJson_frame _).2.2.1⟩
  · rw [csvMoveUp_data w]
    exact ⟨rfl, rfl, rfl, rfl, rfl⟩

/-! ## C9: row cursor stays in [0, rowCount] -/

theorem csvOp_data (w : CSVViewer) (op : CsvOp) : (applyCsvOp w op).data = w.data := by
  cases op
  · exact csvMoveUp_data w
  · exact csvMoveDown_data w

theorem ensureCsv_cursorRow (v : CSVViewer) :
    (ensureCursorVisibleCsv v).cursorRow = v.cursorRow :=
  (ensureCsv_frame v).2.1

theorem csvMoveUp_cursorRow (w : CSVViewer) :
    (csvMoveUp w).cursorRow =
      if w.cursorRow > 0 then w.cursorRow - 1 else w.cursorRow := by
  unfold csvMoveUp
  by_cases h : w.cursorRow > 0
  · rw [if_pos h, if_pos h, ensureCsv_cursorRow]
  · rw [if_neg h, if_neg h]

theorem csvMoveDown_cursorRow (w : CSVViewer) :
    (csvMoveDown w).cursorRow =
      if w.cursorRow < (w.data.rows.length : Int) then w.cursorRow + 1
      else w.cursorRow := by
  unfold csvMoveDown
  by_cases h : w.cursorRow < (w.data.rows.length : Int)
  · rw [if_pos h, if_pos h, ensureCsv_cursorRow]
  · rw [if_neg h, if_neg h]

theorem csvOp_inv (w : CSVViewer) (op : CsvOp)
    (h0 : 0 ≤ w.cursorRow) (h1 : w.cursorRow ≤ (w.data.rows.length : Int)) :
    0 ≤ (applyCsvOp w op).cursorRow ∧
    (applyCsvOp w op).cursorRow ≤ ((applyCsvOp w op).data.rows.length : Int) := by
  rw [csvOp_data w op]
  cases op
  · show 0 ≤ (csvMoveUp w).cursorRow ∧ (csvMoveUp w).cursorRow ≤ _
    rw [csvMoveUp_cursorRow]
    constructor <;> (split <;> omega)
  · show 0 ≤ (csvMoveDown w).cursorRow ∧ (csvMoveDown w).cursorRow ≤ _
    rw [csvMoveDown_cursorRow]
    constructor <;> (split <;> omega)

theorem csvOps_foldl_inv : ∀ (ops : List CsvOp) (w : CSVViewer),
    0 ≤ w.cursorRow → w.cursorRow ≤ (w.data.rows.length : Int) →
    (0 ≤ (ops.foldl applyCsvOp w).cursorRow ∧
     (ops.foldl applyCsvOp w).cursorRow ≤
       ((ops.foldl applyCsvOp w).data.rows.length : Int)) ∧
    (ops.foldl applyCsvOp w).data = w.data
  | [], _, h0, h1 => ⟨⟨h0, h1⟩, rfl⟩
  | op :: rest, w, h0, h1 => by
    have hstep := csvOp_inv w op h0 h1
    have hd := csvOp_data w op
    have ih := csvOps_foldl_inv rest (applyCsvOp w op) hstep.1 hstep.2
    refine ⟨ih.1, ?_⟩
    rw [List.foldl_cons, ih.2, hd]

/-- C9: starting from a fresh table viewer, any sequence of table
moveUp/moveDown operations keeps the row cursor in the inclusive range
[0, R] where R is the number of data rows; moveDown with the cursor at R
leaves it at R, and moveUp at 0 leaves it at 0. -/
theorem claim_C9_row_cursor_range (d : CSVData) (ops : List CsvOp) :
    (0 ≤ (ops.foldl applyCsvOp (newCSVViewer d)).cursorRow ∧
     (ops.foldl applyCsvOp (newCSVViewer d)).cursorRow ≤ (d.rows.length : Int)) ∧
    (∀ w : CSVViewer, w.cursorRow = (w.data.rows.length : Int) →
       (csvMoveDown w).cursorRow = w.cursorRow) ∧
    (∀ w : CSVViewer, w.cursorRow = 0 → (csvMoveUp w).cursorRow = 0) := by
  refine ⟨?_, ?_, ?_⟩
  · have h := csvOps_foldl_inv ops (newCSVViewer d) (by simp [newCSVViewer])
      (by simp [newCSVViewer])
    refine ⟨h.1.1, ?_⟩
    have h2 := h.1.2
    rw [h.2] at h2
    exact h2
  · intro w hR
    rw [csvMoveDown_cursorRow, hR]
    simp
  · intro w h0
    rw [csvMoveUp_cursorRow, h0]
    simp

/-- A one-column one-row table used as concrete input for witnesses. -/
def c9data : CSVData := { newCSVData with headers := ["h"], rows := [["a"]] }

/-- Witness for C9 at a concrete table and operation sequence. -/
theorem claim_C9_witness :
    (0 ≤ ([CsvOp.down, CsvOp.down, CsvOp.up].foldl applyCsvOp
        (newCSVViewer c9data)).cursorRow ∧
     ([CsvOp.down, CsvOp.down, CsvOp.up].foldl applyCsvOp
        (newCSVViewer c9data)).cursorRow ≤ (c9data.rows.length : Int)) ∧
    (csvMoveDown { newCSVViewer c9data with cursorRow := 1 }).cursorRow =
      ({ newCSVViewer c9data with cursorRow := 1 } : CSVViewer).cursorRow ∧
    (csvMoveUp (newCSVViewer c9data)).cursorRow = 0 := by
  obtain ⟨h1, h2, h3⟩ := claim_C9_row_cursor_range c9data
    [CsvOp.down, CsvOp.down, CsvOp.up]
  exact ⟨h1, h2 _ (by decide), h3 _ (by decide)⟩

/-! ## C6: sortByCurrentColumn flag behaviour -/

theorem sortByColumn_fields (c : CSVData) (colIndex : Int) (ascending : Bool)
    (h0 : 0 ≤ colIndex) (h1 : colIndex < (c.headers.length : Int)) :
    (sortByColumn c colIndex ascending).sortColumn = colIndex ∧
    (sortByColumn c colIndex ascending).sortAsc = ascending ∧
    (sortByColumn c colIndex ascending).headers = c.headers := by
  unfold sortByColumn
  rw [if_neg (by omega)]
  exact ⟨rfl, rfl, rfl⟩

theorem sortByCurrentColumn_cursorCol (w : CSVViewer) :
    (sortByCurrentColumn w).cursorCol = w.cursorCol := rfl

/-- C6 counterexample: on a freshly-parsed empty table (no columns, the
fresh -1 sort sentinel, cursor column 0) sortByCurrentColumn leaves
sortColumn at -1 instead of setting it to the cursor column, because
SortByColumn rejects an out-of-range column index. -/
theorem claim_C6_counterexample :
    (newCSVViewer newCSVData).data.sortColumn ≠ (newCSVViewer newCSVData).cursorCol ∧
    (sortByCurrentColumn (newCSVViewer newCSVData)).data.sortColumn = -1 ∧
    (sortByCurrentColumn (newCSVViewer newCSVData)).data.sortColumn ≠
      (newCSVViewer newCSVData).cursorCol := by
  refine ⟨by decide, rfl, by decide⟩

/-- C6 amended: provided the cursor column is a real column (the table
has at least one column, which holds whenever headers are non-empty since
the column cursor is clamped to [0, C-1]), sortByCurrentColumn sets
sortColumn to the cursor column; it sets sortAscending to true when
sortColumn previously differed (including the fresh -1 sentinel) and
flips sortAscending when sortColumn already equalled the cursor column;
hence applying it twice on the same column gives ascending then
descending, and a fresh table defaults to ascending. -/
theorem claim_C6_sortByCurrentColumn_flags (w : CSVViewer)
    (h0 : 0 ≤ w.cursorCol) (h1 : w.cursorCol < (w.data.headers.length : Int)) :
    ((sortByCurrentColumn w).data.sortColumn = w.cursorCol ∧
     (sortByCurrentColumn w).data.sortAsc =
       (if w.data.sortColumn = w.cursorCol then !w.data.sortAsc else true)) ∧
    (w.data.sortColumn ≠ w.cursorCol → (sortByCurrentColumn w).data.sortAsc = true) ∧
    ((sortByCurrentColumn (sortByCurrentColumn w)).data.sortColumn = w.cursorCol ∧
     (sortByCurrentColumn (sortByCurrentColumn w)).data.sortAsc =
       !((sortByCurrentColumn w).data.sortAsc)) := by
  have hfirst := sortByColumn_fields w.data w.cursorCol
    (if w.data.sortColumn = w.cursorCol then !w.data.sortAsc else true) h0 h1
  have hcc : (sortByCurrentColumn w).cursorCol = w.cursorCol := rfl
  have hdata : (sortByCurrentColumn w).data =
      sortByColumn w.data w.cursorCol
        (if w.data.sortColumn = w.cursorCol then !w.data.sortAsc else true) := rfl
  refine ⟨⟨?_, ?_⟩, ?_, ?_, ?_⟩
  · rw [hdata]
    exact hfirst.1
  · rw [hdata]
    exact hfirst.2.1
  · intro hne
    have h2 := hfirst.2.1
    rw [if_neg hne] at h2
    rw [hdata, if_neg hne]
    exact h2
  · have h1b : (sortByCurrentColumn w).cursorCol <
        (((sortByCurrentColumn w).data.headers.length : Nat) : Int) := by
      rw [hcc, hdata, hfirst.2.2]
      exact h1
    have hsecond := sortByColumn_fields (sortByCurrentColumn w).data
      (sortByCurrentColumn w).cursorCol
      (if (sortByCurrentColumn w).data.sortColumn = (sortByCurrentColumn w).cursorCol
       then !(sortByCurrentColumn w).data.sortAsc else true)
      (by rw [hcc]; exact h0) h1b
    have hdata2 : (sortByCurrentColumn (sortByCurrentColumn w)).data =
        sortByColumn (sortByCurrentColumn w).data (sortByCurrentColumn w).cursorCol
          (if (sortByCurrentColumn w).data.sortColumn = (sortByCurrentColumn w).cursorCol
           then !(sortByCurrentColumn w).data.sortAsc else true) := rfl
    rw [hdata2]
    rw [hsecond.1, hcc]
  · have h1b : (sortByCurrentColumn w).cursorCol <
        (((sortByCurrentColumn w).data.headers.length : Nat) : Int) := by
      rw [hcc, hdata, hfirst.2.2]
      exact h1
    have hsecond := sortByColumn_fields (sortByCurrentColumn w).data
      (sortByCurrentColumn w).cursorCol
      (if (sortByCurrentColumn w).data.sortColumn = (sortByCurrentColumn w).cursorCol
       then !(sortByCurrentColumn w).data.sortAsc else true)
      (by rw [hcc]; exact h0) h1b
    have hdata2 : (sortByCurrentColumn (sortByCurrentColumn w)).data =
        sortByColumn (sortByCurrentColumn w).data (sortByCurrentColumn w).cursorCol
          (if (sortByCurrentColumn w).data.sortColumn = (sortByCurrentColumn w).cursorCol
           then !(sortByCurrentColumn w).data.sortAsc else true) := rfl
    rw [hdata2, hsecond.2.1]
    have heq : (sortByCurrentColumn w).data.sortColumn = (sortByCurrentColumn w).cursorCol := by
      rw [hcc, hdata, hfirst.1]
    rw [if_pos heq]

/-- Witness for C6 on a concrete one-column table with the fresh -1
sentinel: the first sort is ascending, the second descending. -/
theorem claim_C6_witness :
    ((sortByCurrentColumn (newCSVViewer c9data)).data.sortColumn =
        (newCSVViewer c9data).cursorCol ∧
     (sortByCurrentColumn (newCSVViewer c9data)).data.sortAsc =
       (if (newCSVViewer c9data).data.sortColumn = (newCSVViewer c9data).cursorCol
        then !(newCSVViewer c9data).data.sortAsc else true)) ∧
    ((newCSVViewer c9data).data.sortColumn ≠ (newCSVViewer c9data).cursorCol →
       (sortByCurrentColumn (newCSVViewer c9data)).data.sortAsc = true) ∧
    ((sortByCurrentColumn (sortByCurrentColumn (newCSVViewer c9data))).data.sortColumn =
        (newCSVViewer c9data).cursorCol ∧
     (sortByCurrentColumn (sortByCurrentColumn (newCSVViewer c9data))).data.sortAsc =
       !((sortByCurrentColumn (newCSVViewer c9data)).data.sortAsc)) :=
  claim_C6_sortByCurrentColumn_flags (newCSVViewer c9data) (by decide) (by decide)

/-! ## C5: column width formula and bounds -/

/-- The effect of the width fold on a single column index i: running max
of cell length + 2, starting from the header-derived width. -/
def colMax (i : Nat) (w0 : Nat) (rows : List (List String)) : Nat :=
  rows.foldl (fun acc r =>
    match r.get? i with
    | some c => max acc (c.length + 2)
    | none => acc) w0

/-- Running max of raw cell lengths in column i starting from a. -/
def colCellMax (i : Nat) (a : Nat) (rows : List (List String)) : Nat :=
  rows.foldl (fun acc r =>
    match r.get? i with
    | some c => max acc c.length
    | none => acc) a

/-- The spec's "maxCellLengthInColumn": the largest cell length among the
rows that have a cell in column i (0 when none has). -/
def maxCellLenInColumn (rows : List (List String)) (i : Nat) : Nat :=
  colCellMax i 0 rows

/-- The column width in the words of the spec (claim C5):
max(headerLength+4, maxCellLengthInColumn+2), clamped to [10, maxW],
rounded up to an even number. Written from the spec for comparison with
the code. -/
def specColumnWidth (maxW : Nat) (hd : String) (rows : List (List String))
    (i : Nat) : Nat :=
  let raw := max (hd.length + 4) (maxCellLenInColumn rows i + 2)
  let clamped := max 10 (min raw maxW)
  if clamped % 2 = 1 then clamped + 1 else clamped

theorem updateWithRow_get? :
    ∀ (ws : List Nat) (row : List String) (i : Nat),
    (updateWithRow ws row).get? i =
      (ws.get? i).map (fun w =>
        match row.get? i with
        | some c => max w (c.length + 2)
        | none => w)
  | [], [], _ => rfl
  | [], _ :: _, _ => rfl
  | w :: ws, [], i => by
    show (w :: ws).get? i = ((w :: ws).get? i).map (fun w => w)
    cases h : (w :: ws).get? i <;> rfl
  | w :: ws, c :: cs, 0 => by
    show some (if c.length + 2 > w then c.length + 2 else w) = some (max w (c.length + 2))
    have h : (if c.length + 2 > w then c.length + 2 else w) = max w (c.length + 2) := by
      split <;> omega
    rw [h]
  | w :: ws, c :: cs, i + 1 => updateWithRow_get? ws cs i

theorem foldl_updateWithRow_get? :
    ∀ (rows : List (List String)) (ws : List Nat) (i : Nat),
    (rows.foldl updateWithRow ws).get? i =
      (ws.get? i).map (fun w => colMax i w rows)
  | [], ws, i => by
    show ws.get? i = (ws.get? i).map (fun w => colMax i w [])
    cases h : ws.get? i <;> rfl
  | r :: rest, ws, i => by
    rw [List.foldl_cons, foldl_updateWithRow_get? rest (updateWithRow ws r) i,
      updateWithRow_get? ws r i]
    cases h : ws.get? i <;> rfl

theorem colMax_init (i : Nat) :
    ∀ (rows : List (List String)) (w0 w1 : Nat),
    colMax i (max w0 w1) rows = max w0 (colMax i w1 rows)
  | [], w0, w1 => rfl
  | r :: rest, w0, w1 => by
    unfold colMax
    rw [List.foldl_cons, List.foldl_cons]
    cases h : r.get? i with
    | none =>
      simp only [h]
      exact colMax_init i rest w0 w1
    | some c =>
      simp only [h]
      have : max (max w0 w1) (c.length + 2) = max w0 (max w1 (c.length + 2)) :=
        max_assoc w0 w1 (c.length + 2)
      rw [this]
      exact colMax_init i rest w0 (max w1 (c.length + 2))

theorem colCellMax_init (i : Nat) :
    ∀ (rows : List (List String)) (a b : Nat),
    colCellMax i (max a b) rows = max a (colCellMax i b rows)
  | [], a, b => rfl
  | r :: rest, a, b => by
    unfold colCellMax
    rw [List.foldl_cons, List.foldl_cons]
    cases h : r.get? i with
    | none =>
      simp only [h]
      exact colCellMax_init i rest a b
    | some c =>
      simp only [h]
      rw [max_assoc a b c.length]
      exact colCellMax_init i rest a (max b c.length)

theorem colMax_shift (i : Nat) :
    ∀ (rows : List (List String)) (a : Nat),
    colMax i (a + 2) rows = colCellMax i a rows + 2
  | [], a => rfl
  | r :: rest, a => by
    unfold colMax colCellMax
    rw [List.foldl_cons, List.foldl_cons]
    cases h : r.get? i with
    | none =>
      simp only [h]
      exact colMax_shift i rest a
    | some c =>
      simp only [h]
      have : max (a + 2) (c.length + 2) = max a c.length + 2 := by omega
      rw [this]
      exact colMax_shift i rest (max a c.length)

theorem colMax_formula (i : Nat) (rows : List (List String)) (hd : String) :
    colMax i (hd.length + 4) rows =
      max (hd.length + 4) (maxCellLenInColumn rows i + 2) := by
  have h1 : hd.length + 4 = (hd.length + 2) + 2 := by omega
  rw [h1, colMax_shift i rows (hd.length + 2)]
  have h2 : hd.length + 2 = max (hd.length + 2) 0 := by omega
  rw [h2, colCellMax_init i rows (hd.length + 2) 0]
  unfold maxCellLenInColumn
  omega

theorem clampWidth_bounds (w : Nat) :
    10 ≤ clampWidth 30 w ∧ clampWidth 30 w ≤ 30 := by
  unfold clampWidth
  split_ifs <;> omega

theorem finalizeWidth_bounds (w : Nat) :
    10 ≤ finalizeWidth 30 w ∧ finalizeWidth 30 w ≤ 30 ∧ finalizeWidth 30 w % 2 = 0 := by
  have hc := clampWidth_bounds w
  unfold finalizeWidth
  split_ifs with h <;> omega

theorem calcWidths_mem_bounds (headers : List String) (rows : List (List String))
    (w : Nat) (hw : w ∈ calculateColumnWidths 30 headers rows) :
    10 ≤ w ∧ w ≤ 30 ∧ w % 2 = 0 := by
  unfold calculateColumnWidths at hw
  obtain ⟨x, _, hx⟩ := List.mem_map.mp hw
  rw [← hx]
  exact finalizeWidth_bounds x

theorem finalizeWidth_eq_spec (w : Nat) :
    finalizeWidth 30 w =
      (fun clamped => if clamped % 2 = 1 then clamped + 1 else clamped)
        (max 10 (min w 30)) := by
  unfold finalizeWidth clampWidth
  have h : (if w > 30 then 30 else if w < 10 then 10 else w) = max 10 (min w 30) := by
    split_ifs <;> omega
  rw [h]

/-- C5: every column width computed at CSV viewer construction equals
max(headerLength+4, maxCellLengthInColumn+2) clamped to [10, 30] and
rounded up to an even number (columnMaxWidth = DefaultColumnMaxWidth =
30); in particular every computed width lies in [10, 30] and is even. -/
theorem claim_C5_column_widths (headers : List String) (rows : List (List String))
    (i : Nat) (hd : String) (hh : headers.get? i = some hd) :
    (calculateColumnWidths 30 headers rows).get? i =
      some (specColumnWidth 30 hd rows i) ∧
    ∀ w, w ∈ calculateColumnWidths 30 headers rows →
      10 ≤ w ∧ w ≤ 30 ∧ w % 2 = 0 := by
  constructor
  · unfold calculateColumnWidths
    rw [List.get?_map, foldl_updateWithRow_get?, List.get?_map, hh]
    show some (finalizeWidth 30 (colMax i (String.length hd + 4) rows)) = _
    rw [colMax_formula]
    rw [finalizeWidth_eq_spec]
    rfl
  · intro w hw
    exact calcWidths_mem_bounds headers rows w hw

/-- Witness for C5 on a concrete two-row table. -/
theorem claim_C5_witness :
    (calculateColumnWidths 30 ["name"] [["alice"], ["b"]]).get? 0 =
      some (specColumnWidth 30 "name" [["alice"], ["b"]] 0) ∧
    ∀ w, w ∈ calculateColumnWidths 30 ["name"] [["alice"], ["b"]] →
      10 ≤ w ∧ w ≤ 30 ∧ w % 2 = 0 :=
  claim_C5_column_widths ["name"] [["alice"], ["b"]] 0 "name" rfl

/-! ## C8: truncation with ellipsis is exact and in bounds -/

/-- C8: for any content string and any column width w produced by the
width computation (all of which satisfy w >= 10), rendering replaces the
content by its first w-5 characters plus "..." exactly when the content
is longer than w-2 characters — in which case the truncation point w-5 is
within the content, and the result has exactly w-2 characters — and
leaves the content untouched otherwise; in particular formatting never
fails. -/
theorem claim_C8_truncation (headers : List String) (rows : List (List String))
    (w : Nat) (hw : w ∈ calculateColumnWidths 30 headers rows) (content : String) :
    (w - 2 < content.length →
        truncateContent content w = String.mk (content.data.take (w - 5)) ++ "..." ∧
        w - 5 ≤ content.length ∧
        (truncateContent content w).length = w - 2) ∧
    (content.length ≤ w - 2 → truncateContent content w = content) := by
  have hb := calcWidths_mem_bounds headers rows w hw
  have hdatalen : content.length = content.data.length := rfl
  constructor
  · intro hlen
    have hgt : content.length > w - 2 := hlen
    refine ⟨?_, ?_, ?_⟩
    · unfold truncateContent
      rw [if_pos hgt]
    · omega
    · unfold truncateContent
      rw [if_pos hgt]
      have hx : (String.mk (content.data.take (w - 5)) ++ "...").length =
          (content.data.take (w - 5)).length + 3 := by
        show ((content.data.take (w - 5)) ++ "...".data).length = _
        rw [List.length_append]
        rfl
      rw [hx, List.length_take]
      omega
  · intro hle
    unfold truncateContent
    rw [if_neg (by omega)]

/-- Witness for C8: width 10 comes from a concrete table; a 12-character
cell is cut to 5 characters plus the ellipsis, 8 characters in all. -/
theorem claim_C8_witness :
    truncateContent "abcdefghijkl" 10 =
      String.mk (("abcdefghijkl" : String).data.take 5) ++ "..." ∧
    (truncateContent "abcdefghijkl" 10).length = 8 := by
  have h := (claim_C8_truncation ["head"] [] 10 (by decide) "abcdefghijkl").1 (by decide)
  exact ⟨h.1, h.2.2⟩

/-! ## C2: tree cursor invariant -/

theorem buildNodeList_root (v : JSONViewer) : (buildNodeList v).root = v.root := rfl

theorem buildNodeList_visible (v : JSONViewer) :
    (buildNodeList v).visibleNodes =
      (flattenNode v.root []).filter (fun p => ancestorsExpanded v.root p) := rfl

theorem flattenNode_cons (n : Node) (p : List Nat) :
    ∃ rest, flattenNode n p = p :: rest := by
  cases n with
  | mk e cs => exact ⟨_, rfl⟩

theorem ancestorsExpanded_nil (root : Node) : ancestorsExpanded root [] = true := rfl

theorem visibleList_ne_nil (root : Node) :
    (flattenNode root []).filter (fun p => ancestorsExpanded root p) ≠ [] := by
  obtain ⟨rest, hr⟩ := flattenNode_cons root []
  rw [hr, List.filter_cons, ancestorsExpanded_nil]
  simp

/-- The cursor invariant of claim C2. -/
def cursorInv (v : JSONViewer) : Prop :=
  0 ≤ v.cursor ∧ v.cursor < (v.visibleNodes.length : Int)

theorem updateVisible_cursor (v : JSONViewer) :
    (updateVisible v).cursor =
      (if v.cursor ≥ ((v.nodes.filter (fun p => ancestorsExpanded v.root p)).length : Int) ∧
          ((v.nodes.filter (fun p => ancestorsExpanded v.root p)).length : Int) > 0
       then ((v.nodes.filter (fun p => ancestorsExpanded v.root p)).length : Int) - 1
       else v.cursor) := rfl

theorem updateVisible_visible (v : JSONViewer) :
    (updateVisible v).visibleNodes =
      v.nodes.filter (fun p => ancestorsExpanded v.root p) := rfl

theorem buildNodeList_inv (v : JSONViewer) (h0 : 0 ≤ v.cursor) :
    cursorInv (buildNodeList v) := by
  have hne := visibleList_ne_nil v.root
  have hlen : 0 < ((flattenNode v.root []).filter
      (fun p => ancestorsExpanded v.root p)).length := List.length_pos.mpr hne
  unfold cursorInv buildNodeList
  rw [updateVisible_cursor, updateVisible_visible]
  dsimp only
  constructor
  · split <;> omega
  · split <;> omega

theorem jsonOp_inv (v : JSONViewer) (op : JsonOp) (h : cursorInv v) :
    cursorInv (applyJsonOp v op) := by
  obtain ⟨h0, h1⟩ := h
  cases op
  · show cursorInv (jsonMoveUp v)
    unfold cursorInv jsonMoveUp
    constructor
    · rw [(ensureJson_frame _).2.2.2]
      split <;> (try dsimp only) <;> omega
    · rw [(ensureJson_frame _).2.2.2, (ensureJson_frame _).2.2.1]
      split <;> (try dsimp only) <;> omega
  · show cursorInv (jsonMoveDown v)
    unfold cursorInv jsonMoveDown
    constructor
    · rw [(ensureJson_frame _).2.2.2]
      split <;> (try dsimp only) <;> omega
    · rw [(ensureJson_frame _).2.2.2, (ensureJson_frame _).2.2.1]
      split <;> (try dsimp only) <;> omega
  · show cursorInv (toggleNode v)
    unfold toggleNode
    split
    · cases hp : v.visibleNodes.get? v.cursor.toNat with
      | none => exact ⟨h0, h1⟩
      | some p =>
        dsimp only
        cases hn : getNode v.root p with
        | none => exact ⟨h0, h1⟩
        | some nd =>
          dsimp only
          split
          · exact buildNodeList_inv _ h0
          · exact ⟨h0, h1⟩
    · exact ⟨h0, h1⟩

theorem jsonOps_foldl_inv : ∀ (ops : List JsonOp) (v : JSONViewer),
    cursorInv v → cursorInv (ops.foldl applyJsonOp v)
  | [], _, h => h
  | op :: rest, v, h =>
    jsonOps_foldl_inv rest (applyJsonOp v op) (jsonOp_inv v op h)

/-- C2: after any sequence of moveUp, moveDown and toggleCurrent on a
freshly-built tree viewer, the cursor satisfies 0 <= cursor <
len(visibleNodes) whenever the visible-node list is non-empty (in fact
the visible list always contains the root, so the invariant holds
unconditionally; the hypothesis mirrors the claim wording). -/
theorem claim_C2_cursor_invariant (root : Node) (ops : List JsonOp)
    (hne : (ops.foldl applyJsonOp (newJSONViewer root)).visibleNodes ≠ []) :
    0 ≤ (ops.foldl applyJsonOp (newJSONViewer root)).cursor ∧
    (ops.foldl applyJsonOp (newJSONViewer root)).cursor <
      ((ops.foldl applyJsonOp (newJSONViewer root)).visibleNodes.length : Int) :=
  jsonOps_foldl_inv ops (newJSONViewer root)
    (buildNodeList_inv _ (by exact le_refl 0))

/-- Witness for C2 on a concrete two-level tree and a concrete sequence
of toggle and move operations. -/
theorem claim_C2_witness :
    0 ≤ ([JsonOp.down, JsonOp.toggle, JsonOp.down, JsonOp.up].foldl applyJsonOp
        (newJSONViewer (Node.mk true [Node.mk true [Node.mk true []]]))).cursor ∧
    ([JsonOp.down, JsonOp.toggle, JsonOp.down, JsonOp.up].foldl applyJsonOp
        (newJSONViewer (Node.mk true [Node.mk true [Node.mk true []]]))).cursor <
      (([JsonOp.down, JsonOp.toggle, JsonOp.down, JsonOp.up].foldl applyJsonOp
        (newJSONViewer (Node.mk true [Node.mk true [Node.mk true []]]))).visibleNodes.length : Int) :=
  claim_C2_cursor_invariant (Node.mk true [Node.mk true [Node.mk true []]])
    [JsonOp.down, JsonOp.toggle, JsonOp.down, JsonOp.up] (by decide)

/-! ## C4: collapseAll then expandAll restores a fully-expanded tree -/

theorem toggleAllChildren_isEmpty (cs : List Node) (b : Bool) :
    (toggleAllChildren cs b).isEmpty = cs.isEmpty := by
  cases cs <;> rfl

mutual
theorem toggleAll_restore : ∀ (n : Node), allExpanded n = true →
    toggleAllNodes (toggleAllNodes n false) true = n
  | .mk e cs, h => by
    have he : e = true ∧ allExpandedList cs = true := by
      have := h
      unfold allExpanded at this
      exact ⟨(Bool.and_eq_true _ _).mp this |>.1, (Bool.and_eq_true _ _).mp this |>.2⟩
    cases hcs : cs.isEmpty with
    | true =>
      have hnil : cs = [] := by
        cases cs with
        | nil => rfl
        | cons c rest => simp [List.isEmpty] at hcs
      subst hnil
      rfl
    | false =>
      have hinner : toggleAllNodes (Node.mk e cs) false =
          Node.mk false (toggleAllChildren cs false) := by
        show (if cs.isEmpty = true then Node.mk e cs
              else Node.mk false (toggleAllChildren cs false)) = _
        rw [hcs]
        simp
      have houter : toggleAllNodes (Node.mk false (toggleAllChildren cs false)) true =
          Node.mk true (toggleAllChildren (toggleAllChildren cs false) true) := by
        show (if (toggleAllChildren cs false).isEmpty = true
              then Node.mk false (toggleAllChildren cs false)
              else Node.mk true (toggleAllChildren (toggleAllChildren cs false) true)) = _
        rw [toggleAllChildren_isEmpty cs false, hcs]
        simp
      rw [hinner, houter, toggleAllList_restore cs he.2, he.1]

theorem toggleAllList_restore : ∀ (cs : List Node), allExpandedList cs = true →
    toggleAllChildren (toggleAllChildren cs false) true = cs
  | [], _ => rfl
  | c :: rest, h => by
    have hh : allExpanded c = true ∧ allExpandedList rest = true := by
      have := h
      unfold allExpandedList at this
      exact ⟨(Bool.and_eq_true _ _).mp this |>.1, (Bool.and_eq_true _ _).mp this |>.2⟩
    show toggleAllNodes (toggleAllNodes c false) true ::
        toggleAllChildren (toggleAllChildren rest false) true = c :: rest
    rw [toggleAll_restore c hh.1, toggleAllList_restore rest hh.2]
end

theorem collapseAll_root (v : JSONViewer) :
    (collapseAll v).root = toggleAllNodes v.root false := rfl

theorem expandAll_root (v : JSONViewer) :
    (expandAll v).root = toggleAllNodes v.root true := rfl

/-- C4: on a tree whose nodes all start expanded (the construction
default), collapseAll followed by expandAll restores the root exactly,
so the visible-node list equals the initial fully-expanded one, element
for element and in order. -/
theorem claim_C4_collapse_expand_roundtrip (root : Node)
    (hall : allExpanded root = true) :
    (expandAll (collapseAll (newJSONViewer root))).visibleNodes =
      (newJSONViewer root).visibleNodes := by
  have hroot : (expandAll (collapseAll (newJSONViewer root))).root = root := by
    rw [expandAll_root, collapseAll_root]
    show toggleAllNodes (toggleAllNodes (newJSONViewer root).root false) true = root
    have : (newJSONViewer root).root = root := rfl
    rw [this]
    exact toggleAll_restore root hall
  show (flattenNode (toggleAllNodes (toggleAllNodes root false) true) []).filter
      (fun p => ancestorsExpanded (toggleAllNodes (toggleAllNodes root false) true) p) =
    (flattenNode root []).filter (fun p => ancestorsExpanded root p)
  rw [toggleAll_restore root hall]

/-- Witness for C4 on a concrete fully-expanded two-level tree. -/
theorem claim_C4_witness :
    (expandAll (collapseAll (newJSONViewer
        (Node.mk true [Node.mk true [Node.mk true []], Node.mk true []])))).visibleNodes =
      (newJSONViewer
        (Node.mk true [Node.mk true [Node.mk true []], Node.mk true []])).visibleNodes :=
  claim_C4_collapse_expand_roundtrip
    (Node.mk true [Node.mk true [Node.mk true []], Node.mk true []]) (by decide)

/-! ## C7: toggleCurrent flips exactly the cursor node -/

theorem getNode_cons_some (e0 : Bool) (cs0 : List Node) (i : Nat) (rest : List Nat)
    (c : Node) (hc : cs0.get? i = some c) :
    getNode (Node.mk e0 cs0) (i :: rest) = getNode c rest := by
  show (match cs0.get? i with
        | some c => getNode c rest
        | none => none) = _
  rw [hc]

theorem getNode_cons_none (e0 : Bool) (cs0 : List Node) (i : Nat) (rest : List Nat)
    (hc : cs0.get? i = none) :
    getNode (Node.mk e0 cs0) (i :: rest) = none := by
  show (match cs0.get? i with
        | some c => getNode c rest
        | none => none) = _
  rw [hc]

theorem toggleChildren_get? :
    ∀ (cs : List Node) (i : Nat) (rest : List Nat) (j : Nat),
    (toggleChildren cs i rest).get? j =
      if j = i then (cs.get? i).map (fun c => toggleAt c rest) else cs.get? j
  | [], i, rest, j => by split <;> rfl
  | c :: cs, 0, rest, 0 => rfl
  | c :: cs, 0, rest, j + 1 => by
    rw [if_neg (Nat.succ_ne_zero j)]
    rfl
  | c :: cs, i + 1, rest, 0 => by
    rw [if_neg (by omega)]
    rfl
  | c :: cs, i + 1, rest, j + 1 => by
    show (toggleChildren cs i rest).get? j = _
    rw [toggleChildren_get? cs i rest j]
    by_cases h : j = i
    · rw [if_pos h, if_pos (by omega)]
      rfl
    · rw [if_neg h, if_neg (by omega)]
      rfl

theorem getNode_toggleAt_self :
    ∀ (p : List Nat) (n : Node) (e : Bool) (cs : List Node),
    getNode n p = some (Node.mk e cs) →
    getNode (toggleAt n p) p = some (Node.mk (!e) cs)
  | [], n, e, cs, h => by
    have hn : n = Node.mk e cs := Option.some.inj h
    subst hn
    rfl
  | i :: rest, n, e, cs, h => by
    cases n with
    | mk e0 cs0 =>
      cases hc : cs0.get? i with
      | none =>
        rw [getNode_cons_none e0 cs0 i rest hc] at h
        exact Option.noConfusion h
      | some c =>
        rw [getNode_cons_some e0 cs0 i rest c hc] at h
        show getNode (Node.mk e0 (toggleChildren cs0 i rest)) (i :: rest) = _
        rw [getNode_cons_some e0 (toggleChildren cs0 i rest) i rest (toggleAt c rest)
          (by rw [toggleChildren_get? cs0 i rest i, if_pos rfl, hc]; rfl)]
        exact getNode_toggleAt_self rest c e cs h

theorem expandedAt_toggleAt_ne :
    ∀ (p q : List Nat) (n : Node), q ≠ p →
    expandedAt (toggleAt n p) q = expandedAt n q
  | [], [], _, hne => absurd rfl hne
  | [], j :: qs, n, _ => by
    cases n with
    | mk e cs =>
      show expandedAt (Node.mk (!e) cs) (j :: qs) = expandedAt (Node.mk e cs) (j :: qs)
      unfold expandedAt
      cases hc : cs.get? j with
      | none => rw [getNode_cons_none (!e) cs j qs hc, getNode_cons_none e cs j qs hc]
      | some c => rw [getNode_cons_some (!e) cs j qs c hc, getNode_cons_some e cs j qs c hc]
  | i :: ps, [], n, _ => by
    cases n with
    | mk e cs => rfl
  | i :: ps, j :: qs, n, hne => by
    cases n with
    | mk e cs =>
      show expandedAt (Node.mk e (toggleChildren cs i ps)) (j :: qs) =
        expandedAt (Node.mk e cs) (j :: qs)
      unfold expandedAt
      by_cases hij : j = i
      · subst hij
        cases hc : cs.get? j with
        | none =>
          rw [getNode_cons_none e (toggleChildren cs j ps) j qs
              (by rw [toggleChildren_get? cs j ps j, if_pos rfl, hc]; rfl),
            getNode_cons_none e cs j qs hc]
        | some c =>
          have hqs : qs ≠ ps := fun hq => hne (by rw [hq])
          rw [getNode_cons_some e (toggleChildren cs j ps) j qs (toggleAt c ps)
              (by rw [toggleChildren_get? cs j ps j, if_pos rfl, hc]; rfl),
            getNode_cons_some e cs j qs c hc]
          exact expandedAt_toggleAt_ne ps qs c hqs
      · cases hc : cs.get? j with
        | none =>
          rw [getNode_cons_none e (toggleChildren cs i ps) j qs
              (by rw [toggleChildren_get? cs i ps j, if_neg hij]; exact hc),
            getNode_cons_none e cs j qs hc]
        | some c =>
          rw [getNode_cons_some e (toggleChildren cs i ps) j qs c
              (by rw [toggleChildren_get? cs i ps j, if_neg hij]; exact hc),
            getNode_cons_some e cs j qs c hc]

mutual
theorem flatten_valid : ∀ (n : Node) (p0 q : List Nat), q ∈ flattenNode n p0 →
    ∃ s, q = p0 ++ s ∧ (getNode n s).isSome = true
  | .mk e cs, p0, q, hq => by
    have hq2 : q = p0 ∨ q ∈ (if e = true then flattenChildren cs p0 0 else []) :=
      List.mem_cons.mp hq
    rcases hq2 with h | h
    · exact ⟨[], by rw [h, List.append_nil], rfl⟩
    · cases he : e with
      | false =>
        rw [he] at h
        simp at h
      | true =>
        rw [he] at h
        simp only [if_pos rfl] at h
        obtain ⟨j, s, c, hq3, _, hget, hsome⟩ := flattenChildren_valid cs p0 0 q h
        refine ⟨j :: s, ?_, ?_⟩
        · rw [hq3, List.append_assoc]
          rfl
        · rw [getNode_cons_some true cs j s c (by simpa using hget)]
          exact hsome

theorem flattenChildren_valid : ∀ (cs : List Node) (p0 : List Nat) (i : Nat)
    (q : List Nat), q ∈ flattenChildren cs p0 i →
    ∃ j s c, q = (p0 ++ [j]) ++ s ∧ i ≤ j ∧ cs.get? (j - i) = some c ∧
      (getNode c s).isSome = true
  | [], _, _, _, hq => absurd hq (by simp [flattenChildren])
  | c :: rest, p0, i, q, hq => by
    have hq2 : q ∈ flattenNode c (p0 ++ [i]) ∨ q ∈ flattenChildren rest p0 (i + 1) :=
      List.mem_append.mp hq
    rcases hq2 with h | h
    · obtain ⟨s, hqs, hsome⟩ := flatten_valid c (p0 ++ [i]) q h
      exact ⟨i, s, c, by rw [hqs], le_refl i, by simp, hsome⟩
    · obtain ⟨j, s, c0, hqs, hij, hget, hsome⟩ :=
        flattenChildren_valid rest p0 (i + 1) q h
      refine ⟨j, s, c0, hqs, by omega, ?_, hsome⟩
      have hj : j - i = (j - (i + 1)) + 1 := by omega
      rw [hj]
      show rest.get? (j - (i + 1)) = some c0
      exact hget
end

/-- Well-formedness of a tree viewer: its node lists are the ones built
by buildNodeList from its root (true of every viewer the code
constructs). -/
def viewerWF (v : JSONViewer) : Prop :=
  v.nodes = flattenNode v.root [] ∧
  v.visibleNodes = v.nodes.filter (fun p => ancestorsExpanded v.root p)

theorem visible_path_valid (v : JSONViewer) (hwf : viewerWF v) (p : List Nat)
    (hp : p ∈ v.visibleNodes) : (getNode v.root p).isSome = true := by
  rw [hwf.2] at hp
  have hp2 : p ∈ v.nodes := List.mem_of_mem_filter hp
  rw [hwf.1] at hp2
  obtain ⟨s, hs, hsome⟩ := flatten_valid v.root [] p hp2
  rw [List.nil_append] at hs
  rw [hs]
  exact hsome

/-- C7: on a well-formed viewer, with the cursor on a valid visible node,
toggleCurrent flips the expanded flag of exactly the node at the cursor
when that node has children and leaves every other node's flag untouched;
when the node has no children the tree is left completely unchanged. -/
theorem claim_C7_toggle_exact (v : JSONViewer) (hwf : viewerWF v) (p : List Nat)
    (hc : 0 ≤ v.cursor) (hp : v.visibleNodes.get? v.cursor.toNat = some p) :
    ∃ nd, getNode v.root p = some nd ∧
      (nd.hasChildren = true →
        expandedAt (toggleNode v).root p = some (!nd.expanded) ∧
        ∀ q, q ≠ p → expandedAt (toggleNode v).root q = expandedAt v.root q) ∧
      (nd.hasChildren = false → (toggleNode v).root = v.root) := by
  have hmem : p ∈ v.visibleNodes := List.get?_mem hp
  have hsome := visible_path_valid v hwf p hmem
  obtain ⟨nd, hnd⟩ := Option.isSome_iff_exists.mp hsome
  have hlt : v.cursor < (v.visibleNodes.length : Int) := by
    have h1 : v.cursor.toNat < v.visibleNodes.length := by
      by_contra hge
      rw [List.get?_eq_none.mpr (by omega)] at hp
      exact Option.noConfusion hp
    omega
  have htg : toggleNode v =
      if nd.hasChildren = true then
        buildNodeList { v with root := toggleAt v.root p }
      else v := by
    unfold toggleNode
    rw [if_pos ⟨hc, hlt⟩, hp]
    dsimp only
    rw [hnd]
  refine ⟨nd, hnd, ?_, ?_⟩
  · intro hchild
    rw [htg, if_pos hchild]
    constructor
    · cases nd with
      | mk e cs =>
        show (getNode (toggleAt v.root p) p).map Node.expanded =
          some (!(Node.mk e cs).expanded)
        rw [getNode_toggleAt_self p v.root e cs hnd]
        rfl
    · intro q hq
      show expandedAt (toggleAt v.root p) q = expandedAt v.root q
      exact expandedAt_toggleAt_ne p q v.root hq
  · intro hnochild
    rw [htg, if_neg (by rw [hnochild]; exact Bool.false_ne_true)]

/-- Witness for C7: a viewer freshly built over a two-node tree, cursor
on the root, which has one child. -/
theorem claim_C7_witness :
    ∃ nd, getNode (newJSONViewer (Node.mk true [Node.mk true []])).root [] = some nd ∧
      (nd.hasChildren = true →
        expandedAt (toggleNode (newJSONViewer (Node.mk true [Node.mk true []]))).root []
            = some (!nd.expanded) ∧
        ∀ q, q ≠ ([] : List Nat) →
          expandedAt (toggleNode (newJSONViewer (Node.mk true [Node.mk true []]))).root q
            = expandedAt (newJSONViewer (Node.mk true [Node.mk true []])).root q) ∧
      (nd.hasChildren = false →
        (toggleNode (newJSONViewer (Node.mk true [Node.mk true []]))).root =
          (newJSONViewer (Node.mk true [Node.mk true []])).root) :=
  claim_C7_toggle_exact (newJSONViewer (Node.mk true [Node.mk true []]))
    ⟨by decide, by decide⟩ [] (by decide) (by decide)

/-! ## C3: when content detection yields jsonl -/

theorem detectJSONLFormat_iff (parses : String → Bool) (lines : List String) :
    detectJSONLFormat parses lines = true ↔
      (1 < lines.length ∧ 0 < jsonlCount parses lines ∧
       min 10 lines.length / 2 ≤ jsonlCount parses lines) := by
  unfold detectJSONLFormat
  by_cases h : lines.length ≤ 1
  · rw [if_pos h]
    constructor
    · intro hf
      exact absurd hf Bool.false_ne_true
    · intro hp
      omega
  · rw [if_neg h]
    rw [Bool.and_eq_true, decide_eq_true_eq, decide_eq_true_eq]
    constructor
    · intro hpq
      exact ⟨by omega, hpq.1, hpq.2⟩
    · intro hpq
      exact ⟨hpq.2.1, hpq.2.2⟩

theorem detectByContent_eq_jsonl_iff (parses csvOk : String → Bool) (data : String) :
    detectByContent parses csvOk data = .jsonl ↔
      ((goTrim data).data.isEmpty = false ∧
       detectJSONFormat parses (goTrim data) = false ∧
       detectJSONLFormat parses (goSplitLines (goTrim data)) = true) := by
  unfold detectByContent
  split_ifs with h1 h2 h3 h4 <;> simp_all

/-- C3 (amended): for every input whose content-based detection is not
json, the detector classifies it as jsonl exactly when the trimmed
content splits into at least two lines and, among the first
min(10, lineCount) sampled lines, at least one parses as a JSON object
and the number of sampled lines parsing as JSON objects is at least
floor(sampleSize/2) — the denominator being the sample size including
empty sampled lines, with integer division, not "50 percent of the
non-empty sampled lines". -/
theorem claim_C3_jsonl_criterion (parses csvOk : String → Bool) (data : String)
    (hnj : detectByContent parses csvOk data ≠ .json) :
    detectByContent parses csvOk data = .jsonl ↔
      ((goTrim data).data.isEmpty = false ∧
       1 < (goSplitLines (goTrim data)).length ∧
       0 < jsonlCount parses (goSplitLines (goTrim data)) ∧
       min 10 (goSplitLines (goTrim data)).length / 2 ≤
         jsonlCount parses (goSplitLines (goTrim data))) := by
  rw [detectByContent_eq_jsonl_iff]
  constructor
  · rintro ⟨he, _, hl⟩
    have hh := (detectJSONLFormat_iff parses _).mp hl
    exact ⟨he, hh.1, hh.2.1, hh.2.2⟩
  · rintro ⟨he, h1, h2, h3⟩
    refine ⟨he, ?_, (detectJSONLFormat_iff parses _).mpr ⟨h1, h2, h3⟩⟩
    by_contra hjt
    have hjt2 : detectJSONFormat parses (goTrim data) = true := by
      cases hh : detectJSONFormat parses (goTrim data) with
      | true => rfl
      | false => exact absurd hh hjt
    apply hnj
    unfold detectByContent
    rw [if_neg (by simp [he]), if_pos hjt2]

/-- C3 counterexample: taking json.Unmarshal to succeed exactly on "{}"
(true of the real parser for these five strings), the input
"{}"+newline+"x"+newline+"y" is not detected as json; only 1 of its 3
non-empty sampled lines parses as a JSON object, which is less than 50
percent, so the claim says it is not jsonl — yet the detector classifies
it as jsonl because 1 >= floor(3/2) = 1. -/
theorem claim_C3_counterexample :
    detectByContent (fun s => s == "{}") (fun _ => false) "{}\nx\ny" ≠ .json ∧
    detectByContent (fun s => s == "{}") (fun _ => false) "{}\nx\ny" = .jsonl ∧
    specJsonlCriterion (fun s => s == "{}") "{}\nx\ny" = false :=
  ⟨by decide, by decide, by decide⟩

/-- Witness for the amended C3 criterion at the same concrete input. -/
theorem claim_C3_witness :
    detectByContent (fun s => s == "{}") (fun _ => false) "{}\nx\ny" = .jsonl ↔
      ((goTrim "{}\nx\ny").data.isEmpty = false ∧
       1 < (goSplitLines (goTrim "{}\nx\ny")).length ∧
       0 < jsonlCount (fun s => s == "{}") (goSplitLines (goTrim "{}\nx\ny")) ∧
       min 10 (goSplitLines (goTrim "{}\nx\ny")).length / 2 ≤
         jsonlCount (fun s => s == "{}") (goSplitLines (goTrim "{}\nx\ny"))) :=
  claim_C3_jsonl_criterion (fun s => s == "{}") (fun _ => false) "{}\nx\ny" (by decide)

/-! ## C1: basic properties of the exchange sort -/

theorem lt_length_of_get?_some {α : Type} {l : List α} {n : Nat} {a : α}
    (h : l.get? n = some a) : n < l.length := by
  by_contra hge
  rw [List.get?_eq_none.mpr (by omega)] at h
  exact Option.noConfusion h

/-- Case analysis of one comparison-and-swap step. -/
theorem maybeSwap_cases (col : Nat) (cmp : String → String → Bool)
    (rows : List (List String)) (i j : Nat) :
    (maybeSwap col cmp rows i j = rows ∧
      (rows.get? i = none ∨ rows.get? j = none ∨
       ∃ ri rj, rows.get? i = some ri ∧ rows.get? j = some rj ∧
         ¬(col < ri.length ∧ col < rj.length ∧
           cmp (ri.getD col "") (rj.getD col "") = true))) ∨
    (∃ ri rj, rows.get? i = some ri ∧ rows.get? j = some rj ∧
       col < ri.length ∧ col < rj.length ∧
       cmp (ri.getD col "") (rj.getD col "") = true ∧
       maybeSwap col cmp rows i j = (rows.set i rj).set j ri) := by
  unfold maybeSwap
  cases hi : rows.get? i with
  | none =>
    refine Or.inl ⟨?_, Or.inl rfl⟩
    cases hj : rows.get? j <;> rfl
  | some ri =>
    cases hj : rows.get? j with
    | none => exact Or.inl ⟨rfl, Or.inr (Or.inl rfl)⟩
    | some rj =>
      by_cases hcond : col < ri.length ∧ col < rj.length ∧
          cmp (ri.getD col "") (rj.getD col "") = true
      · refine Or.inr ⟨ri, rj, rfl, rfl, hcond.1, hcond.2.1, hcond.2.2, ?_⟩
        show (if col < ri.length ∧ col < rj.length ∧
              cmp (ri.getD col "") (rj.getD col "") = true
            then (rows.set i rj).set j ri else rows) = _
        rw [if_pos hcond]
      · refine Or.inl ⟨?_, Or.inr (Or.inr ⟨ri, rj, rfl, rfl, hcond⟩)⟩
        show (if col < ri.length ∧ col < rj.length ∧
              cmp (ri.getD col "") (rj.getD col "") = true
            then (rows.set i rj).set j ri else rows) = _
        rw [if_neg hcond]

theorem maybeSwap_length (col : Nat) (cmp : String → String → Bool)
    (rows : List (List String)) (i j : Nat) :
    (maybeSwap col cmp rows i j).length = rows.length := by
  rcases maybeSwap_cases col cmp rows i j with ⟨heq, _⟩ | ⟨_, _, _, _, _, _, _, heq⟩ <;>
    rw [heq]
  rw [List.length_set, List.length_set]

theorem innerLoop_length (col : Nat) (cmp : String → String → Bool) (i : Nat) :
    ∀ (js : List Nat) (rows : List (List String)),
    (innerLoop col cmp i rows js).length = rows.length
  | [], _ => rfl
  | j :: rest, rows => by
    show (innerLoop col cmp i (maybeSwap col cmp rows i j) rest).length = _
    rw [innerLoop_length col cmp i rest (maybeSwap col cmp rows i j),
      maybeSwap_length]

theorem maybeSwap_get?_ne (col : Nat) (cmp : String → String → Bool)
    (rows : List (List String)) (i j t : Nat) (hti : t ≠ i) (htj : t ≠ j) :
    (maybeSwap col cmp rows i j).get? t = rows.get? t := by
  rcases maybeSwap_cases col cmp rows i j with ⟨heq, _⟩ | ⟨ri, rj, _, _, _, _, _, heq⟩ <;>
    rw [heq]
  rw [List.get?_set_ne _ _ (fun h => htj h.symm),
    List.get?_set_ne _ _ (fun h => hti h.symm)]

theorem innerLoop_get?_frame (col : Nat) (cmp : String → String → Bool) (i t : Nat)
    (hti : t ≠ i) : ∀ (js : List Nat) (rows : List (List String)), t ∉ js →
    (innerLoop col cmp i rows js).get? t = rows.get? t
  | [], _, _ => rfl
  | j :: rest, rows, htjs => by
    show (innerLoop col cmp i (maybeSwap col cmp rows i j) rest).get? t = _
    rw [innerLoop_get?_frame col cmp i t hti rest _ (fun h => htjs (List.mem_cons_of_mem j h)),
      maybeSwap_get?_ne col cmp rows i j t hti (fun h => htjs (h ▸ List.mem_cons_self j rest))]

theorem innerLoop_fix_of_none (col : Nat) (cmp : String → String → Bool) (i : Nat) :
    ∀ (js : List Nat) (rows : List (List String)), rows.get? i = none →
    innerLoop col cmp i rows js = rows
  | [], _, _ => rfl
  | j :: rest, rows, hi => by
    have hms : maybeSwap col cmp rows i j = rows := by
      unfold maybeSwap
      rw [hi]
    show innerLoop col cmp i (maybeSwap col cmp rows i j) rest = rows
    rw [hms]
    exact innerLoop_fix_of_none col cmp i rest rows hi

theorem innerLoop_fix_of_short (col : Nat) (cmp : String → String → Bool) (i : Nat) :
    ∀ (js : List Nat) (rows : List (List String)) (ri : List String),
    rows.get? i = some ri → ¬ col < ri.length →
    innerLoop col cmp i rows js = rows
  | [], _, _, _, _ => rfl
  | j :: rest, rows, ri, hi, hshort => by
    have hms : maybeSwap col cmp rows i j = rows := by
      unfold maybeSwap
      rw [hi]
      cases hj : rows.get? j with
      | none => rfl
      | some rj =>
        show (if col < ri.length ∧ col < rj.length ∧
              cmp (ri.getD col "") (rj.getD col "") = true
            then (rows.set i rj).set j ri else rows) = _
        rw [if_neg (fun hcond => hshort hcond.1)]
    show innerLoop col cmp i (maybeSwap col cmp rows i j) rest = rows
    rw [hms]
    exact innerLoop_fix_of_short col cmp i rest rows ri hi hshort

theorem set_set_get?_fst (rows : List (List String)) (i j : Nat)
    (ri rj : List String) (hi : rows.get? i = some ri) (hij : i ≠ j) :
    ((rows.set i rj).set j ri).get? i = some rj := by
  rw [List.get?_set_ne _ _ (fun h => hij h.symm),
    List.get?_set_eq_of_lt _ (lt_length_of_get?_some hi)]

theorem set_set_get?_snd (rows : List (List String)) (i j : Nat)
    (ri rj : List String) (hj : rows.get? j = some rj) :
    ((rows.set i rj).set j ri).get? j = some ri := by
  rw [List.get?_set_eq_of_lt _
    (by rw [List.length_set]; exact lt_length_of_get?_some hj)]

/-- Along the inner pass, the row parked at position i only ever gets
replaced by rows with a smaller-or-equal key; it stays long. -/
theorem innerLoop_key_mono (col : Nat) :
    ∀ (js : List Nat) (rows : List (List String)) (i : Nat) (ri : List String),
    i ∉ js → rows.get? i = some ri → col < ri.length →
    ∃ ri2, (innerLoop col goStrGt i rows js).get? i = some ri2 ∧
      col < ri2.length ∧ goStrLe (ri2.getD col "") (ri.getD col "") = true
  | [], _, _, ri, _, hi, hlong => ⟨ri, hi, hlong, goStrLe_refl _⟩
  | j :: rest, rows, i, ri, hnot, hi, hlong => by
    have hij : i ≠ j := fun h => hnot (h ▸ List.mem_cons_self j rest)
    have hrest : i ∉ rest := fun h => hnot (List.mem_cons_of_mem j h)
    show ∃ ri2,
      (innerLoop col goStrGt i (maybeSwap col goStrGt rows i j) rest).get? i = some ri2 ∧ _
    rcases maybeSwap_cases col goStrGt rows i j with ⟨heq, _⟩ |
      ⟨ri0, rj0, hi0, hj0, _, hl2, hcmp, heq⟩
    · rw [heq]
      exact innerLoop_key_mono col rest rows i ri hrest hi hlong
    · have hri0 : ri0 = ri := by
        rw [hi0] at hi
        exact Option.some.inj hi
      subst hri0
      have hg1 : (maybeSwap col goStrGt rows i j).get? i = some rj0 := by
        rw [heq]
        exact set_set_get?_fst rows i j ri0 rj0 hi0 hij
      obtain ⟨ri2, h1, h2, h3⟩ := innerLoop_key_mono col rest _ i rj0 hrest hg1 hl2
      exact ⟨ri2, h1, h2, goStrLe_trans h3 (goStrLt_le hcmp)⟩

/-- One comparison-and-swap step only permutes positions i, j: the row
read at any position afterwards was at position i, j or that position
before. -/
theorem maybeSwap_get?_perm (col : Nat) (cmp : String → String → Bool)
    (rows : List (List String)) (i j b : Nat) :
    ∃ b2, (b2 = i ∨ b2 = j ∨ b2 = b) ∧
      (maybeSwap col cmp rows i j).get? b = rows.get? b2 := by
  rcases maybeSwap_cases col cmp rows i j with ⟨heq, _⟩ |
    ⟨ri, rj, hi, hj, _, _, _, heq⟩
  · exact ⟨b, Or.inr (Or.inr rfl), by rw [heq]⟩
  · by_cases hbj : b = j
    · subst hbj
      exact ⟨i, Or.inl rfl, by rw [heq, set_set_get?_snd rows i b ri rj hj, hi]⟩
    · by_cases hbi : b = i
      · subst hbi
        exact ⟨j, Or.inr (Or.inl rfl),
          by rw [heq, set_set_get?_fst rows b j ri rj hi hbj, hj]⟩
      · exact ⟨b, Or.inr (Or.inr rfl),
          by rw [heq, List.get?_set_ne _ _ (fun h => hbj h.symm),
            List.get?_set_ne _ _ (fun h => hbi h.symm)]⟩

/-- The inner pass moves rows around only within positions >= i. -/
theorem innerLoop_get?_from (col : Nat) (cmp : String → String → Bool) (i : Nat) :
    ∀ (js : List Nat) (rows : List (List String)) (b : Nat),
    (∀ j ∈ js, i ≤ j) → i ≤ b →
    ∃ b2, i ≤ b2 ∧ (innerLoop col cmp i rows js).get? b = rows.get? b2
  | [], _, b, _, hb => ⟨b, hb, rfl⟩
  | j :: rest, rows, b, hall, hb => by
    show ∃ b2, i ≤ b2 ∧
      (innerLoop col cmp i (maybeSwap col cmp rows i j) rest).get? b = rows.get? b2
    obtain ⟨b2, hb2, heq⟩ := innerLoop_get?_from col cmp i rest
      (maybeSwap col cmp rows i j) b (fun t ht => hall t (List.mem_cons_of_mem j ht)) hb
    obtain ⟨b3, hb3, heq3⟩ := maybeSwap_get?_perm col cmp rows i j b2
    refine ⟨b3, ?_, by rw [heq, heq3]⟩
    rcases hb3 with h | h | h
    · omega
    · have := hall j (List.mem_cons_self j rest)
      omega
    · omega

theorem innerLoop_cons (col : Nat) (cmp : String → String → Bool) (i : Nat)
    (rows : List (List String)) (j : Nat) (rest : List Nat) :
    innerLoop col cmp i rows (j :: rest) =
      innerLoop col cmp i (maybeSwap col cmp rows i j) rest := rfl

/-- Postcondition of the inner pass at position i over j = s, ..., s+m-1:
if the rows finally at positions i and j both have a cell in the sort
column, the key at i is <= the key at j. -/
theorem innerLoop_post (col : Nat) :
    ∀ (m s : Nat) (rows : List (List String)) (i : Nat), i < s →
    ∀ ri2, (innerLoop col goStrGt i rows (List.range' s m)).get? i = some ri2 →
      col < ri2.length →
      ∀ j, j ∈ List.range' s m →
        ∀ rj2, (innerLoop col goStrGt i rows (List.range' s m)).get? j = some rj2 →
          col < rj2.length →
          goStrLe (ri2.getD col "") (rj2.getD col "") = true
  | 0, s, rows, i, _, ri2, _, _, j, hj, _, _, _ => by
    simp [List.range'] at hj
  | m + 1, s, rows, i, his, ri2, hri2, hlong2, j, hj, rj2, hrj2, hlongj => by
    rw [List.range'_succ, innerLoop_cons] at hri2 hrj2
    rw [List.range'_succ] at hj
    have hnotrest : i ∉ List.range' (s + 1) m := by
      intro hm
      have := List.mem_range'_1.mp hm
      omega
    rcases List.mem_cons.mp hj with hjs | hjrest
    · subst hjs
      have hframe : (innerLoop col goStrGt i (maybeSwap col goStrGt rows i j)
          (List.range' (j + 1) m)).get? j = (maybeSwap col goStrGt rows i j).get? j :=
        innerLoop_get?_frame col goStrGt i j (by omega) _ _ (by
          intro hm
          have := List.mem_range'_1.mp hm
          omega)
      rw [hframe] at hrj2
      cases hi0 : rows.get? i with
      | none =>
        have hr1eq : maybeSwap col goStrGt rows i j = rows := by
          unfold maybeSwap
          rw [hi0]
        rw [hr1eq, innerLoop_fix_of_none col goStrGt i _ rows hi0, hi0] at hri2
        exact Option.noConfusion hri2
      | some ri0 =>
        by_cases hlong0 : col < ri0.length
        · rcases maybeSwap_cases col goStrGt rows i j with ⟨heq, hwhy⟩ |
            ⟨ri0', rj0, hi0', hj0, _, hls, hcmp, heq⟩
          · rw [heq] at hri2 hrj2
            obtain ⟨ri3, hfin, _, hle3⟩ := innerLoop_key_mono col
              (List.range' (j + 1) m) rows i ri0 hnotrest hi0 hlong0
            have hri3 : ri3 = ri2 := by
              rw [hfin] at hri2
              exact Option.some.inj hri2
            subst hri3
            rcases hwhy with h | h | ⟨ri', rj', hi', hj', hng⟩
            · rw [h] at hi0
              exact Option.noConfusion hi0
            · rw [h] at hrj2
              exact Option.noConfusion hrj2
            · have hri' : ri' = ri0 := by
                rw [hi'] at hi0
                exact Option.some.inj hi0
              have hrj' : rj' = rj2 := by
                rw [hj'] at hrj2
                exact Option.some.inj hrj2
              rw [hri', hrj'] at hng
              have hgtf : goStrGt (ri0.getD col "") (rj2.getD col "") = false := by
                cases hh : goStrGt (ri0.getD col "") (rj2.getD col "") with
                | true => exact absurd ⟨hlong0, hlongj, hh⟩ hng
                | false => rfl
              have hle0 : goStrLe (ri0.getD col "") (rj2.getD col "") = true := by
                unfold goStrLe
                rw [hgtf]
                rfl
              exact goStrLe_trans hle3 hle0
          · have hri0' : ri0' = ri0 := by
              rw [hi0'] at hi0
              exact Option.some.inj hi0
            subst hri0'
            have hg1 : (maybeSwap col goStrGt rows i j).get? i = some rj0 := by
              rw [heq]
              exact set_set_get?_fst rows i j ri0' rj0 hi0' (by omega)
            have hgs : (maybeSwap col goStrGt rows i j).get? j = some ri0' := by
              rw [heq]
              exact set_set_get?_snd rows i j ri0' rj0 hj0
            have hrj2' : rj2 = ri0' := by
              rw [hgs] at hrj2
              exact (Option.some.inj hrj2).symm
            obtain ⟨ri3, hfin, _, hle3⟩ := innerLoop_key_mono col
              (List.range' (j + 1) m) _ i rj0 hnotrest hg1 hls
            have hri3 : ri3 = ri2 := by
              rw [hfin] at hri2
              exact Option.some.inj hri2
            subst hri3
            rw [hrj2']
            exact goStrLe_trans hle3 (goStrLt_le hcmp)
        · have hr1eq : maybeSwap col goStrGt rows i j = rows :=
            innerLoop_fix_of_short col goStrGt i [j] rows ri0 hi0 hlong0
          rw [hr1eq, innerLoop_fix_of_short col goStrGt i _ rows ri0 hi0 hlong0,
            hi0] at hri2
          have : ri0 = ri2 := Option.some.inj hri2
          subst this
          exact absurd hlong2 hlong0
    · exact innerLoop_post col m (s + 1) (maybeSwap col goStrGt rows i s) i
        (by omega) ri2 hri2 hlong2 j hjrest rj2 hrj2 hlongj

/-- The sortedness invariant of the outer loop: every row parked below
position k is keyed <= every later row, over pairs where both rows have a
cell in the sort column. -/
def SortedPrefix (col k : Nat) (rows : List (List String)) : Prop :=
  ∀ a b ra rb, a < k → a < b → rows.get? a = some ra → rows.get? b = some rb →
    col < ra.length → col < rb.length →
    goStrLe (ra.getD col "") (rb.getD col "") = true

theorem outer_step (col n : Nat) (rows : List (List String)) (i : Nat)
    (hn : rows.length = n) (hinv : SortedPrefix col i rows) :
    SortedPrefix col (i + 1)
      (innerLoop col goStrGt i rows (List.range' (i + 1) (n - (i + 1)))) := by
  intro a b ra rb ha hab hga hgb hla hlb
  by_cases hai : a < i
  · have hfa : (innerLoop col goStrGt i rows
        (List.range' (i + 1) (n - (i + 1)))).get? a = rows.get? a :=
      innerLoop_get?_frame col goStrGt i a (by omega) _ rows (by
        intro hm
        have := List.mem_range'_1.mp hm
        omega)
    rw [hfa] at hga
    by_cases hbi : b < i
    · have hfb : (innerLoop col goStrGt i rows
          (List.range' (i + 1) (n - (i + 1)))).get? b = rows.get? b :=
        innerLoop_get?_frame col goStrGt i b (by omega) _ rows (by
          intro hm
          have := List.mem_range'_1.mp hm
          omega)
      rw [hfb] at hgb
      exact hinv a b ra rb hai hab hga hgb hla hlb
    · obtain ⟨b2, hb2, heqb⟩ := innerLoop_get?_from col goStrGt i
        (List.range' (i + 1) (n - (i + 1))) rows b
        (fun t ht => by
          have := List.mem_range'_1.mp ht
          omega) (by omega)
      rw [heqb] at hgb
      exact hinv a b2 ra rb hai (by omega) hga hgb hla hlb
  · have hae : a = i := by omega
    subst hae
    have hblt : b < n := by
      have hb := lt_length_of_get?_some hgb
      rw [innerLoop_length, hn] at hb
      exact hb
    have hbmem : b ∈ List.range' (a + 1) (n - (a + 1)) := by
      rw [List.mem_range'_1]
      omega
    exact innerLoop_post col (n - (a + 1)) (a + 1) rows a (by omega)
      ra hga hla b hbmem rb hgb hlb

theorem outerLoop_sorted (col : Nat) :
    ∀ (k i n : Nat) (rows : List (List String)), rows.length = n →
    SortedPrefix col i rows →
    SortedPrefix col (i + k) (outerLoop col goStrGt n rows (List.range' i k)) ∧
    (outerLoop col goStrGt n rows (List.range' i k)).length = n
  | 0, _, _, _, hn, hinv => ⟨hinv, hn⟩
  | k + 1, i, n, rows, hn, hinv => by
    rw [List.range'_succ]
    have hstep := outer_step col n rows i hn hinv
    have hlen1 : (innerLoop col goStrGt i rows
        (List.range' (i + 1) (n - (i + 1)))).length = n := by
      rw [innerLoop_length]
      exact hn
    have ih := outerLoop_sorted col k (i + 1) n _ hlen1 hstep
    constructor
    · have h := ih.1
      have heq : i + 1 + k = i + (k + 1) := by omega
      rw [heq] at h
      exact h
    · exact ih.2

theorem sortRows_sorted_asc (col : Nat) (rows : List (List String)) :
    ∀ a b ra rb, a < b →
    (sortRows col true rows).get? a = some ra →
    (sortRows col true rows).get? b = some rb →
    col < ra.length → col < rb.length →
    goStrLe (ra.getD col "") (rb.getD col "") = true := by
  intro a b ra rb hab hga hgb hla hlb
  have hsr : sortRows col true rows =
      outerLoop col goStrGt rows.length rows (List.range' 0 (rows.length - 1)) := by
    unfold sortRows
    rw [if_pos rfl, List.range_eq_range']
  rw [hsr] at hga hgb
  have hinv0 : SortedPrefix col 0 rows := fun _ _ _ _ ha => absurd ha (by omega)
  have hmain := outerLoop_sorted col (rows.length - 1) 0 rows.length rows rfl hinv0
  have hblt : b < rows.length := by
    have hb := lt_length_of_get?_some hgb
    rw [hmain.2] at hb
    exact hb
  exact hmain.1 a b ra rb (by omega) hab hga hgb hla hlb

/-- C1 (amended): after sorting ascending by a valid column k via
SortByColumn, the rows are in lexicographic order of the key cell over
every pair of rows that both HAVE a cell at column k; rows shorter than
k+1 cells are never compared (the swap guard requires both rows to reach
the column) and keep their positions, so the claimed ordering that reads a
missing cell as the empty string does not hold in general. -/
theorem claim_C1_sorted_on_present_cells (d : CSVData) (k : Int)
    (h0 : 0 ≤ k) (h1 : k < (d.headers.length : Int)) :
    ∀ i j ri rj, i < j →
      (sortByColumn d k true).rows.get? i = some ri →
      (sortByColumn d k true).rows.get? j = some rj →
      k.toNat < ri.length → k.toNat < rj.length →
      goStrLe (ri.getD k.toNat "") (rj.getD k.toNat "") = true := by
  intro i j ri rj hij hgi hgj hli hlj
  have hrows : (sortByColumn d k true).rows = sortRows k.toNat true d.rows := by
    unfold sortByColumn
    rw [if_neg (by omega)]
  rw [hrows] at hgi hgj
  exact sortRows_sorted_asc k.toNat d.rows i j ri rj hij hgi hgj hli hlj

/-- A one-column table with a row that is too short for the sort column,
used by the C1 counterexample. -/
def c1data : CSVData :=
  { newCSVData with headers := ["h"], rows := [["b"], [], ["a"]] }

/-- C1 counterexample: sorting c1data ascending by column 0 yields
[["a"], [], ["b"]] — the empty row never moves — so with the claimed
empty-string reading of the missing cell, the keys in order are
"a", "", "b", and the pair (0, 1) violates the claimed ordering
("a" <= "" is false). -/
theorem claim_C1_counterexample :
    (sortByColumn c1data 0 true).rows = [["a"], [], ["b"]] ∧
    goStrLe ((((sortByColumn c1data 0 true).rows.get? 0).getD []).getD 0 "")
        ((((sortByColumn c1data 0 true).rows.get? 1).getD []).getD 0 "") = false :=
  ⟨by decide, by decide⟩

/-- Witness for the amended C1 at the concrete sorted table: rows 0 and 2
both have a cell in column 0 and are correctly ordered. -/
theorem claim_C1_witness :
    goStrLe ((["a"] : List String).getD 0 "") ((["b"] : List String).getD 0 "") = true :=
  claim_C1_sorted_on_present_cells c1data 0 (by decide) (by decide) 0 2 ["a"] ["b"]
    (by decide) (by decide) (by decide) (by decide) (by decide)
